import Mathlib

/-!
Verification of the placement-cost engine `plc_client_os.py` of the
MacroPlacement repository.  The Python `PlacementCost` class is shallowly
embedded: machine floats become exact rationals `ℚ`, module objects become an
inductive `Module`, the engine object becomes a `PlacementCost` structure, and
code that can raise a Python exception returns `Except Unit`.
Name-based lookups of the source (`mod_name_to_indices`, pin `macro_name`
back-references, `hard_macros_to_inpins`) are represented by the module
indices they resolve to, using the parse-time invariant that the
name-to-index mapping is a bijection.
-/

namespace Plc

attribute [local semireducible] Rat.mul Rat.inv Rat.add Rat.sub Rat.ofScientific

/-- Hard-macro orientation codes, from the `orientation` attribute values
accepted by `update_macro_orientation`. -/
inductive Orientation
| N | FN | S | FS | E | FE | W | FW
deriving DecidableEq, Repr

/-- Result of the Python `get_type()` methods: `"PORT"`, `"MACRO"` (both
soft and hard macros) or `"MACRO_PIN"` (both kinds of pins). -/
inductive NodeType
| PORT | MACRO | MACRO_PIN
deriving DecidableEq, Repr

/-- The five entity classes nested in `PlacementCost`: `Port`, `SoftMacro`,
`HardMacro`, `SoftMacroPin`, `HardMacroPin`.  Sinks are stored as the module
indices the fully qualified sink names resolve to through
`mod_name_to_indices`; a pin's `macro_name` back-reference is stored as the
parent macro's index (`macro_ref`).  Fields that exist in the Python classes
but are touched by no claim (`side`, `connection`, `location`) are omitted. -/
inductive Module
| Port (x y : ℚ) (sink : List ℕ) (fix_flag : Bool) (ifPlaced : Bool)
| SoftMacro (x y width height : ℚ) (orientation : Option Orientation)
    (fix_flag : Bool) (ifPlaced : Bool)
| HardMacro (x y width height : ℚ) (orientation : Orientation)
    (fix_flag : Bool) (ifPlaced : Bool)
| SoftMacroPin (x y : ℚ) (macro_ref : ℕ) (weight : ℚ) (sink : List ℕ)
| HardMacroPin (x y x_offset y_offset : ℚ) (macro_ref : ℕ) (weight : ℚ)
    (sink : List ℕ)
deriving DecidableEq, Repr

namespace Module

/-- The `get_type()` method of each entity class. -/
def get_type : Module → NodeType
  | Port .. => NodeType.PORT
  | SoftMacro .. => NodeType.MACRO
  | HardMacro .. => NodeType.MACRO
  | SoftMacroPin .. => NodeType.MACRO_PIN
  | HardMacroPin .. => NodeType.MACRO_PIN

/-- The `get_pos()` method. -/
def get_pos : Module → ℚ × ℚ
  | Port x y _ _ _ => (x, y)
  | SoftMacro x y _ _ _ _ _ => (x, y)
  | HardMacro x y _ _ _ _ _ => (x, y)
  | SoftMacroPin x y _ _ _ => (x, y)
  | HardMacroPin x y _ _ _ _ _ => (x, y)

/-- The `set_pos(x, y)` method. -/
def set_pos (p : ℚ × ℚ) : Module → Module
  | Port _ _ s f pl => Port p.1 p.2 s f pl
  | SoftMacro _ _ w h o f pl => SoftMacro p.1 p.2 w h o f pl
  | HardMacro _ _ w h o f pl => HardMacro p.1 p.2 w h o f pl
  | SoftMacroPin _ _ r w s => SoftMacroPin p.1 p.2 r w s
  | HardMacroPin _ _ dx dy r w s => HardMacroPin p.1 p.2 dx dy r w s

/-- The `get_width()` method; `Port.get_width` returns `0` in the source,
pins have no such method (never called on pins by the embedded code). -/
def get_width : Module → ℚ
  | Port .. => 0
  | SoftMacro _ _ w _ _ _ _ => w
  | HardMacro _ _ w _ _ _ _ => w
  | SoftMacroPin .. => 0
  | HardMacroPin .. => 0

/-- The `get_height()` method; `Port.get_height` returns `0` in the source,
pins have no such method (never called on pins by the embedded code). -/
def get_height : Module → ℚ
  | Port .. => 0
  | SoftMacro _ _ _ h _ _ _ => h
  | HardMacro _ _ _ h _ _ _ => h
  | SoftMacroPin .. => 0
  | HardMacroPin .. => 0

/-- The `get_weight()` method of the pin classes; non-pins (which have no
such method) yield the default net weight `1.0` used by `get_wirelength`. -/
def get_weight : Module → ℚ
  | SoftMacroPin _ _ _ w _ => w
  | HardMacroPin _ _ _ _ _ w _ => w
  | _ => 1

/-- The `get_sink()` mapping, flattened to the list of resolved sink module
indices (the source iterates `for k in sink: for name in sink[k]`). -/
def get_sink : Module → List ℕ
  | Port _ _ s _ _ => s
  | SoftMacroPin _ _ _ _ s => s
  | HardMacroPin _ _ _ _ _ _ s => s
  | _ => []

/-- The `get_offset()` method of pin classes; `SoftMacroPin` stores constant
zero offsets. -/
def get_offset : Module → ℚ × ℚ
  | HardMacroPin _ _ dx dy _ _ _ => (dx, dy)
  | _ => (0, 0)

/-- The pin `macro_name` back-reference, resolved to the parent index. -/
def macro_ref? : Module → Option ℕ
  | SoftMacroPin _ _ r _ _ => some r
  | HardMacroPin _ _ _ _ r _ _ => some r
  | _ => none

/-- The `get_fix_flag()` method (pins have no fixed flag in the source). -/
def get_fix_flag : Module → Bool
  | Port _ _ _ f _ => f
  | SoftMacro _ _ _ _ _ f _ => f
  | HardMacro _ _ _ _ _ f _ => f
  | _ => false

/-- The `set_fix_flag` method; a no-op on pins, which lack the method. -/
def set_fix_flag (f : Bool) : Module → Module
  | Port x y s _ pl => Port x y s f pl
  | SoftMacro x y w h o _ pl => SoftMacro x y w h o f pl
  | HardMacro x y w h o _ pl => HardMacro x y w h o f pl
  | m => m

/-- The `get_placed_flag()` method (`HardMacroPin` stores `ifPlaced = True`;
`SoftMacroPin` lacks the attribute and is never asked). -/
def get_placed_flag : Module → Bool
  | Port _ _ _ _ pl => pl
  | SoftMacro _ _ _ _ _ _ pl => pl
  | HardMacro _ _ _ _ _ _ pl => pl
  | _ => true

/-- The `set_placed_flag` method; a no-op on soft pins, which lack it. -/
def set_placed_flag (pl : Bool) : Module → Module
  | Port x y s f _ => Port x y s f pl
  | SoftMacro x y w h o f _ => SoftMacro x y w h o f pl
  | HardMacro x y w h o f _ => HardMacro x y w h o f pl
  | m => m

/-- The `get_orientation()` method (`Port` and fresh `SoftMacro` store
`None`). -/
def get_orientation : Module → Option Orientation
  | SoftMacro _ _ _ _ o _ _ => o
  | HardMacro _ _ _ _ o _ _ => some o
  | _ => none

/-- The `set_orientation` method of `SoftMacro`/`HardMacro`; `Port` and the
pin classes have no such method (calling it in Python would crash, and the
embedded code never does). -/
def set_orientation (o : Orientation) : Module → Module
  | SoftMacro x y w h _ f pl => SoftMacro x y w h (some o) f pl
  | HardMacro x y w h _ f pl => HardMacro x y w h o f pl
  | m => m

/-- The `set_offset` method of `HardMacroPin`; a no-op elsewhere. -/
def set_offset (p : ℚ × ℚ) : Module → Module
  | HardMacroPin x y _ _ r w s => HardMacroPin x y p.1 p.2 r w s
  | m => m

end Module

/-- The engine state: the mutable fields of the Python `PlacementCost`
object that the verified operations read or write.  `V_routing_cong` and
`H_routing_cong` are the flat `grid_col * grid_row` lists; `node_mask` is the
`grid_row × grid_col` bitmap addressed as `node_mask row col`. -/
structure PlacementCost where
  modules_w_pins : List Module
  port_indices : List ℕ
  hard_macro_indices : List ℕ
  soft_macro_indices : List ℕ
  width : ℚ
  height : ℚ
  grid_col : ℕ
  grid_row : ℕ
  net_cnt : ℚ
  hroutes_per_micron : ℚ
  vroutes_per_micron : ℚ
  hrouting_alloc : ℚ
  vrouting_alloc : ℚ
  smooth_range : ℕ
  V_routing_cong : List ℚ
  H_routing_cong : List ℚ
  node_mask : ℕ → ℕ → ℕ
  placed_macros : List ℕ
  FLAG_UPDATE_WIRELENGTH : Bool
  FLAG_UPDATE_DENSITY : Bool
  FLAG_UPDATE_CONGESTION : Bool
  FLAG_UPDATE_NODE_MASK : Bool

namespace PlacementCost

/-- Model of `self.modules_w_pins[idx]`; claims only use in-range indices (Python
would raise `IndexError` out of range). -/
def modAt (pc : PlacementCost) (idx : ℕ) : Module :=
  pc.modules_w_pins.getD idx (Module.Port 0 0 [] true true)

/-- Model of `self.grid_width = float(self.width/self.grid_col)`. -/
def grid_width (pc : PlacementCost) : ℚ := pc.width / pc.grid_col

/-- Model of `self.grid_height = float(self.height/self.grid_row)`. -/
def grid_height (pc : PlacementCost) : ℚ := pc.height / pc.grid_row

/-- Model of `__get_pin_position`: a `PORT` is its own position, a hard-macro pin is
the parent position plus the stored offset, a soft-macro pin is the parent
position plus its constant zero offset. -/
def get_pin_position (pc : PlacementCost) (idx : ℕ) : ℚ × ℚ :=
  match pc.modAt idx with
  | Module.Port x y _ _ _ => (x, y)
  | Module.SoftMacroPin _ _ r _ _ =>
      ((pc.modAt r).get_pos.1 + 0, (pc.modAt r).get_pos.2 + 0)
  | Module.HardMacroPin _ _ dx dy r _ _ =>
      ((pc.modAt r).get_pos.1 + dx, (pc.modAt r).get_pos.2 + dy)
  | m => m.get_pos

end PlacementCost

/-- Python `max` over a nonempty list, as a fold from the first element. -/
def foldMax (x : ℚ) (l : List ℚ) : ℚ := l.foldl max x

/-- Python `min` over a nonempty list, as a fold from the first element. -/
def foldMin (x : ℚ) (l : List ℚ) : ℚ := l.foldl min x

namespace PlacementCost

/-- The endpoint list a driver contributes to `get_wirelength`: for a `PORT`
with a nonempty sink set, its own position followed by all resolved sink
positions; for a `MACRO_PIN`, its own pin position followed by all resolved
sink positions; empty otherwise (macros, and ports without sinks). -/
def hpwl_coords (pc : PlacementCost) (idx : ℕ) (m : Module) : List (ℚ × ℚ) :=
  match m with
  | Module.Port x y sink _ _ =>
      if sink = [] then [] else (x, y) :: sink.map pc.get_pin_position
  | Module.SoftMacroPin _ _ _ _ sink =>
      pc.get_pin_position idx :: sink.map pc.get_pin_position
  | Module.HardMacroPin _ _ _ _ _ _ sink =>
      pc.get_pin_position idx :: sink.map pc.get_pin_position
  | _ => []

/-- One driver's term in `get_wirelength`:
`weight_fact * (abs(max(x_coord) - min(x_coord)) + abs(max(y_coord) - min(y_coord)))`
when `x_coord` is nonempty, else `0`. -/
def hpwl_contrib (pc : PlacementCost) (idx : ℕ) (m : Module) : ℚ :=
  match pc.hpwl_coords idx m with
  | [] => 0
  | c :: cs =>
      m.get_weight *
        (|foldMax c.1 (cs.map Prod.fst) - foldMin c.1 (cs.map Prod.fst)| +
         |foldMax c.2 (cs.map Prod.snd) - foldMin c.2 (cs.map Prod.snd)|)

/-- Model of `get_wirelength`: the sum of every driver's HPWL term over
`enumerate(self.modules_w_pins)`. -/
def get_wirelength (pc : PlacementCost) : ℚ :=
  (pc.modules_w_pins.enum.map (fun p => pc.hpwl_contrib p.1 p.2)).sum

/-- Model of `get_cost`: wirelength divided by `(width + height) * net_cnt`. -/
def get_cost (pc : PlacementCost) : ℚ :=
  pc.get_wirelength / ((pc.width + pc.height) * pc.net_cnt)

/-- Claim-side per-driver HPWL, following the specification text: for a
driver with at least one recorded endpoint,
`weight * ((max_x - min_x) + (max_y - min_y))` over the driver's resolved
position and all resolved sink positions. -/
def hpwl_spec_contrib (pc : PlacementCost) (idx : ℕ) (m : Module) : ℚ :=
  match pc.hpwl_coords idx m with
  | [] => 0
  | c :: cs =>
      m.get_weight *
        ((foldMax c.1 (cs.map Prod.fst) - foldMin c.1 (cs.map Prod.fst)) +
         (foldMax c.2 (cs.map Prod.snd) - foldMin c.2 (cs.map Prod.snd)))

/-- Claim-side total wirelength: the sum over every driver with at least one
recorded endpoint of its weighted half-perimeter. -/
def wirelength_spec (pc : PlacementCost) : ℚ :=
  (pc.modules_w_pins.enum.map (fun p => pc.hpwl_spec_contrib p.1 p.2)).sum

end PlacementCost

theorem le_foldMax (x : ℚ) (l : List ℚ) : x ≤ foldMax x l := by
  induction l generalizing x with
  | nil => exact le_refl x
  | cons y ys ih =>
      exact le_trans (le_max_left x y) (ih (max x y))

theorem foldMin_le (x : ℚ) (l : List ℚ) : foldMin x l ≤ x := by
  induction l generalizing x with
  | nil => exact le_refl x
  | cons y ys ih =>
      exact le_trans (ih (min x y)) (min_le_left x y)

theorem foldMin_le_foldMax (x : ℚ) (l : List ℚ) : foldMin x l ≤ foldMax x l :=
  le_trans (foldMin_le x l) (le_foldMax x l)

theorem hpwl_contrib_eq_spec (pc : Plc.PlacementCost) (idx : ℕ) (m : Plc.Module) :
    pc.hpwl_contrib idx m = pc.hpwl_spec_contrib idx m := by
  unfold Plc.PlacementCost.hpwl_contrib Plc.PlacementCost.hpwl_spec_contrib
  cases pc.hpwl_coords idx m with
  | nil => rfl
  | cons c cs =>
      have hx := foldMin_le_foldMax c.1 (cs.map Prod.fst)
      have hy := foldMin_le_foldMax c.2 (cs.map Prod.snd)
      dsimp only
      rw [abs_of_nonneg (by linarith), abs_of_nonneg (by linarith)]

/-- The `Block` namedtuple `(x_max, y_max, x_min, y_min)`. -/
structure Block where
  x_max : ℚ
  y_max : ℚ
  x_min : ℚ
  y_min : ℚ
deriving DecidableEq, Repr

/-- Model of `__overlap_area` (without the unused `return_pos` variant): the area of
the intersection when both side lengths are nonnegative, else `0`. -/
def overlap_area (bi bj : Block) : ℚ :=
  let x_diff := min bi.x_max bj.x_max - max bi.x_min bj.x_min
  let y_diff := min bi.y_max bj.y_max - max bi.y_min bj.y_min
  if 0 ≤ x_diff ∧ 0 ≤ y_diff then x_diff * y_diff else 0

/-- Model of `__overlap_dist`: the two strictly positive overlap extents, else
`(0, 0)`. -/
def overlap_dist (bi bj : Block) : ℚ × ℚ :=
  let x_diff := min bi.x_max bj.x_max - max bi.x_min bj.x_min
  let y_diff := min bi.y_max bj.y_max - max bi.y_min bj.y_min
  if 0 < x_diff ∧ 0 < y_diff then (x_diff, y_diff) else (0, 0)

namespace PlacementCost

/-- Model of `__get_grid_cell_location(x, y) = (floor(y/grid_height), floor(x/grid_width))`. -/
def get_grid_cell_location (pc : PlacementCost) (x y : ℚ) : ℤ × ℤ :=
  (⌊y / pc.grid_height⌋, ⌊x / pc.grid_width⌋)

/-- One module's contribution to `grid_occupied[idx]` inside
`__add_module_to_grid_cells`: out-of-bound modules (negative upper-right
cell) are skipped, the traversed cell rectangle is clipped to the grid, and
each traversed cell accumulates `__overlap_area(cell, module)`. -/
def module_cell_overlap (pc : PlacementCost) (mx my mw mh : ℚ) (idx : ℕ) : ℚ :=
  let module_block : Block :=
    Block.mk (mx + mw / 2) (my + mh / 2) (mx - mw / 2) (my - mh / 2)
  let ur := pc.get_grid_cell_location (mx + mw / 2) (my + mh / 2)
  let bl := pc.get_grid_cell_location (mx - mw / 2) (my - mh / 2)
  if 0 ≤ ur.1 ∧ 0 ≤ ur.2 then
    let bl_row := max bl.1 0
    let bl_col := max bl.2 0
    let ur_row := min ur.1 ((pc.grid_row : ℤ) - 1)
    let ur_col := min ur.2 ((pc.grid_col : ℤ) - 1)
    let r : ℤ := (idx / pc.grid_col : ℕ)
    let c : ℤ := (idx % pc.grid_col : ℕ)
    if bl_row ≤ r ∧ r ≤ ur_row ∧ bl_col ≤ c ∧ c ≤ ur_col then
      overlap_area
        (Block.mk ((c + 1) * pc.grid_width) ((r + 1) * pc.grid_height)
          (c * pc.grid_width) (r * pc.grid_height))
        module_block
    else 0
  else 0

/-- Model of `grid_occupied[idx]` after `get_grid_cells_density`: the sum of the
per-module overlap contributions over `soft_macro_indices + hard_macro_indices`. -/
def grid_occupied (pc : PlacementCost) (idx : ℕ) : ℚ :=
  ((pc.soft_macro_indices ++ pc.hard_macro_indices).map (fun mi =>
    let m := pc.modAt mi
    pc.module_cell_overlap m.get_pos.1 m.get_pos.2 m.get_width m.get_height idx)).sum

/-- Model of `get_grid_cells_density`: the per-cell density list
`grid_occupied[i] / (grid_width * grid_height)` of length `grid_col * grid_row`. -/
def grid_cells (pc : PlacementCost) : List ℚ :=
  (List.range (pc.grid_col * pc.grid_row)).map
    (fun i => pc.grid_occupied i / (pc.grid_width * pc.grid_height))

end PlacementCost

/-- Python `sorted(l, reverse=True)`. -/
def sortDesc (l : List ℚ) : List ℚ := l.insertionSort (fun a b => b ≤ a)

namespace PlacementCost

/-- Model of `get_density_cost`: recomputes the densities through
`get_grid_cells_density`, which raises `ZeroDivisionError` when a grid
dimension is zero (`grid_width = width/grid_col`) or when the canvas area is
zero (`gcell / grid_area` on the then-nonempty grid); it then sorts the
nonzero cell densities descending; with fewer than 10 grid cells it returns
half the average over the occupied cells (a `ZeroDivisionError`, modeled as
`Except.error`, when none is occupied); otherwise it returns half of the
top-`density_cnt` sum divided by
`density_cnt = floor(0.1 * len(grid_cells))` (modeled exactly as natural
division by 10). -/
def get_density_cost (pc : PlacementCost) : Except Unit ℚ :=
  if pc.grid_col = 0 ∨ pc.grid_row = 0 then Except.error ()
  else if pc.grid_width * pc.grid_height = 0 then Except.error ()
  else
  let cells := pc.grid_cells
  let occupied := sortDesc (cells.filter (fun gc => gc ≠ 0))
  let density_cnt := cells.length / 10
  if cells.length < 10 then
    if occupied.length = 0 then Except.error ()
    else Except.ok ((1 / 2) * (occupied.sum / occupied.length))
  else Except.ok ((1 / 2) * ((occupied.take density_cnt).sum / density_cnt))

/-- Model of `get_V_congestion_cost`: same top-10% scheme over the stored
`V_routing_cong` grid, without the `0.5` factor; raises (models
`ZeroDivisionError`) when the grid has fewer than 10 cells and none is
occupied. -/
def get_V_congestion_cost (pc : PlacementCost) : Except Unit ℚ :=
  let occupied := sortDesc (pc.V_routing_cong.filter (fun gc => gc ≠ 0))
  let cong_cnt := pc.V_routing_cong.length / 10
  if pc.V_routing_cong.length < 10 then
    if occupied.length = 0 then Except.error ()
    else Except.ok (occupied.sum / occupied.length)
  else Except.ok ((occupied.take cong_cnt).sum / cong_cnt)

/-- Model of `get_H_congestion_cost`, identical to the vertical getter on
`H_routing_cong`. -/
def get_H_congestion_cost (pc : PlacementCost) : Except Unit ℚ :=
  let occupied := sortDesc (pc.H_routing_cong.filter (fun gc => gc ≠ 0))
  let cong_cnt := pc.H_routing_cong.length / 10
  if pc.H_routing_cong.length < 10 then
    if occupied.length = 0 then Except.error ()
    else Except.ok (occupied.sum / occupied.length)
  else Except.ok ((occupied.take cong_cnt).sum / cong_cnt)

end PlacementCost

/-- The `abu(xx, n)` helper: mean of the top `floor(len(xx)*n)` values, or
`max(xx)` when that count is zero (Python `max([])` raises `ValueError`,
modeled as `Except.error`). -/
def abu (xx : List ℚ) (n : ℚ) : Except Unit ℚ :=
  let xxs := sortDesc xx
  let cnt := (⌊(xx.length : ℚ) * n⌋).toNat
  if cnt = 0 then
    match xxs with
    | [] => Except.error ()
    | x :: xs => Except.ok (foldMax x xs)
  else Except.ok ((xxs.take cnt).sum / cnt)

theorem sortDesc_perm (l : List ℚ) : (sortDesc l).Perm l :=
  List.perm_insertionSort (fun a b => b ≤ a) l

theorem sortDesc_length (l : List ℚ) : (sortDesc l).length = l.length :=
  (sortDesc_perm l).length_eq

theorem sortDesc_sum (l : List ℚ) : (sortDesc l).sum = l.sum :=
  (sortDesc_perm l).sum_eq

theorem grid_cells_length (pc : Plc.PlacementCost) :
    pc.grid_cells.length = pc.grid_col * pc.grid_row := by
  unfold Plc.PlacementCost.grid_cells
  rw [List.length_map, List.length_range]

/-- C1.  `get_cost()` equals `get_wirelength()` divided by
`(canvas_width + canvas_height) * net_cnt`, where the wirelength is the sum,
over every driver (port or macro pin) with at least one recorded endpoint, of
`weight * ((max_x - min_x) + (max_y - min_y))` taken over the driver's
resolved position and all resolved sink positions; `net_cnt` is the stored
parse-time sum of driver weights. -/
theorem claim_C1_cost_formula (pc : Plc.PlacementCost) :
    pc.get_cost = pc.wirelength_spec / ((pc.width + pc.height) * pc.net_cnt) := by
  unfold Plc.PlacementCost.get_cost Plc.PlacementCost.get_wirelength
    Plc.PlacementCost.wirelength_spec
  have h : (fun p : ℕ × Plc.Module => pc.hpwl_contrib p.1 p.2) =
      fun p => pc.hpwl_spec_contrib p.1 p.2 :=
    funext fun p => hpwl_contrib_eq_spec pc p.1 p.2
  rw [h]

theorem take_min_length (l : List ℚ) (k : ℕ) : l.take (min k l.length) = l.take k := by
  rcases le_total k l.length with h | h
  · rw [min_eq_left h]
  · rw [min_eq_right h, List.take_length, List.take_of_length_le h]

theorem foldMax_of_all_zero (x : ℚ) (l : List ℚ) (hx : x = 0)
    (hl : ∀ y ∈ l, y = 0) : foldMax x l = 0 := by
  induction l generalizing x with
  | nil => exact hx
  | cons y ys ih =>
      have hy : y = 0 := hl y (List.mem_cons_self y ys)
      exact ih (max x y) (by rw [hx, hy, max_self])
        (fun z hz => hl z (List.mem_cons_of_mem y hz))

/-- C2 (amended).  Provided the canvas area is nonzero (with a zero-area
canvas the recompute divides `gcell` by `grid_area = 0` and raises
`ZeroDivisionError`): with at least 10 grid cells, `get_density_cost()`
returns half the sum of the largest `min(k, #occupied)` nonzero per-cell
densities divided by the bucket size `k = floor(0.1 * rows * cols)`; with
fewer than 10 cells it returns half the average over the occupied (nonzero)
cells, provided at least one cell is occupied. -/
theorem claim_C2_density_cost (pc : PlacementCost)
    (harea : pc.grid_width * pc.grid_height ≠ 0) :
    (10 ≤ pc.grid_col * pc.grid_row →
      pc.get_density_cost = Except.ok ((1 / 2) *
        (((sortDesc (pc.grid_cells.filter (fun gc => gc ≠ 0))).take
            (min (pc.grid_col * pc.grid_row / 10)
              (pc.grid_cells.filter (fun gc => gc ≠ 0)).length)).sum /
          ((pc.grid_col * pc.grid_row / 10 : ℕ) : ℚ)))) ∧
    (pc.grid_col * pc.grid_row < 10 →
      pc.grid_cells.filter (fun gc => gc ≠ 0) ≠ [] →
      pc.get_density_cost = Except.ok ((1 / 2) *
        ((pc.grid_cells.filter (fun gc => gc ≠ 0)).sum /
          (((pc.grid_cells.filter (fun gc => gc ≠ 0)).length : ℕ) : ℚ)))) := by
  have hlen := grid_cells_length pc
  constructor
  · intro h10
    have hg1 : ¬ (pc.grid_col = 0 ∨ pc.grid_row = 0) := by
      intro h
      rcases h with h | h <;> rw [h] at h10 <;> simp at h10
    have hnot : ¬ pc.grid_cells.length < 10 := by omega
    have htake : (sortDesc (pc.grid_cells.filter (fun gc => gc ≠ 0))).take
        (min (pc.grid_col * pc.grid_row / 10)
          (pc.grid_cells.filter (fun gc => gc ≠ 0)).length) =
        (sortDesc (pc.grid_cells.filter (fun gc => gc ≠ 0))).take
          (pc.grid_col * pc.grid_row / 10) := by
      rw [← sortDesc_length (pc.grid_cells.filter (fun gc => gc ≠ 0)),
        take_min_length]
    simp only [PlacementCost.get_density_cost]
    rw [if_neg hg1, if_neg harea, if_neg hnot, htake, hlen]
  · intro h10 hocc
    have hcells : pc.grid_cells ≠ [] := fun h => hocc (by rw [h]; rfl)
    have hcr : pc.grid_col * pc.grid_row ≠ 0 := by
      intro h
      apply hcells
      rw [← hlen] at h
      exact List.length_eq_zero.mp h
    have hg1 : ¬ (pc.grid_col = 0 ∨ pc.grid_row = 0) := by
      intro h
      apply hcr
      rcases h with h | h <;> simp [h]
    have hlt : pc.grid_cells.length < 10 := by omega
    have hne : ¬ (sortDesc (pc.grid_cells.filter (fun gc => gc ≠ 0))).length = 0 := by
      rw [sortDesc_length, List.length_eq_zero]
      exact hocc
    simp only [PlacementCost.get_density_cost]
    rw [if_neg hg1, if_neg harea, if_pos hlt, if_neg hne, sortDesc_sum, sortDesc_length]

/-- Concrete engine for the C2 witness: a 2-by-2 grid on a 2-by-2 canvas
with one unit soft macro occupying the lower-left cell. -/
def pcW2 : PlacementCost :=
  { modules_w_pins := [Module.SoftMacro (1/2) (1/2) 1 1 none false true]
    port_indices := []
    hard_macro_indices := []
    soft_macro_indices := [0]
    width := 2, height := 2
    grid_col := 2, grid_row := 2
    net_cnt := 1
    hroutes_per_micron := 1, vroutes_per_micron := 1
    hrouting_alloc := 0, vrouting_alloc := 0
    smooth_range := 0
    V_routing_cong := List.replicate 4 0
    H_routing_cong := List.replicate 4 0
    node_mask := fun _ _ => 1
    placed_macros := [0]
    FLAG_UPDATE_WIRELENGTH := true, FLAG_UPDATE_DENSITY := true
    FLAG_UPDATE_CONGESTION := true, FLAG_UPDATE_NODE_MASK := true }

/-- Witness for C2 at the concrete engine `pcW2` (4 grid cells, one of which
is fully occupied). -/
theorem claim_C2_density_cost_witness :
    pcW2.grid_width * pcW2.grid_height ≠ 0 ∧
    pcW2.grid_col * pcW2.grid_row < 10 ∧
    pcW2.grid_cells.filter (fun gc => gc ≠ 0) ≠ [] ∧
    pcW2.get_density_cost = Except.ok ((1 / 2) *
      ((pcW2.grid_cells.filter (fun gc => gc ≠ 0)).sum /
        (((pcW2.grid_cells.filter (fun gc => gc ≠ 0)).length : ℕ) : ℚ))) :=
  ⟨by decide, by decide, by decide,
    (claim_C2_density_cost pcW2 (by decide)).2 (by decide) (by decide)⟩

/-- Concrete engine refuting C2 as stated: a 10-by-10 grid on the zero-area
canvas a fresh engine computes for a macro-free netlist
(`width = height = sqrt(0/0.6) = 0`). -/
def cex2 : PlacementCost :=
  { modules_w_pins := []
    port_indices := []
    hard_macro_indices := []
    soft_macro_indices := []
    width := 0, height := 0
    grid_col := 10, grid_row := 10
    net_cnt := 1
    hroutes_per_micron := 0, vroutes_per_micron := 0
    hrouting_alloc := 0, vrouting_alloc := 0
    smooth_range := 2
    V_routing_cong := List.replicate 100 0
    H_routing_cong := List.replicate 100 0
    node_mask := fun _ _ => 1
    placed_macros := []
    FLAG_UPDATE_WIRELENGTH := true, FLAG_UPDATE_DENSITY := true
    FLAG_UPDATE_CONGESTION := true, FLAG_UPDATE_NODE_MASK := true }

/-- Counterexample to C2 as stated: on a zero-area canvas with 100 grid
cells, `get_grid_cells_density` divides `gcell` by `grid_area = 0` and
raises `ZeroDivisionError`, so `get_density_cost` does not return the
claimed top-decile value. -/
theorem claim_C2_counterexample :
    10 ≤ cex2.grid_col * cex2.grid_row ∧
    cex2.get_density_cost = Except.error () :=
  ⟨by decide, rfl⟩


/-- One output cell of the 1-D box filter of `__smooth_routing_cong`,
in gathered form: the scatter loop adds `f c / gcell_cnt` to every in-bounds
window position `ptr ∈ [lp, rp]` with `lp = c - smooth_range` (clamped at 0,
which is exactly truncated `ℕ` subtraction) and
`rp = min (c + smooth_range) (n - 1)`; gathering per target `p`, the output
is the sum below. -/
def smooth_line (n s : ℕ) (f : ℕ → ℚ) (p : ℕ) : ℚ :=
  ∑ c ∈ Finset.range n,
    if c - s ≤ p ∧ p ≤ min (c + s) (n - 1) then
      f c / ((min (c + s) (n - 1) - (c - s) + 1 : ℕ) : ℚ)
    else 0

namespace PlacementCost

/-- The vertical-congestion smoothing of `__smooth_routing_cong`: a
horizontal (row-wise) box filter. -/
def smooth_V_at (pc : PlacementCost) (V : ℕ → ℚ) (row p : ℕ) : ℚ :=
  smooth_line pc.grid_col pc.smooth_range (fun c => V (row * pc.grid_col + c)) p

/-- The horizontal-congestion smoothing of `__smooth_routing_cong`: a
vertical (column-wise) box filter. -/
def smooth_H_at (pc : PlacementCost) (H : ℕ → ℚ) (p col : ℕ) : ℚ :=
  smooth_line pc.grid_row pc.smooth_range (fun r => H (r * pc.grid_col + col)) p

/-- Model of `__smooth_routing_cong`: replaces `V_routing_cong` by its row-wise
box-filtered version and `H_routing_cong` by its column-wise box-filtered
version (each filtered from its own pre-smoothing values). -/
def smooth_routing_cong (pc : PlacementCost) : PlacementCost :=
  { pc with
    V_routing_cong := (List.range (pc.grid_col * pc.grid_row)).map
      (fun idx => pc.smooth_V_at (fun j => pc.V_routing_cong.getD j 0)
        (idx / pc.grid_col) (idx % pc.grid_col))
    H_routing_cong := (List.range (pc.grid_col * pc.grid_row)).map
      (fun idx => pc.smooth_H_at (fun j => pc.H_routing_cong.getD j 0)
        (idx / pc.grid_col) (idx % pc.grid_col)) }

end PlacementCost

theorem smooth_line_sum (n s : ℕ) (f : ℕ → ℚ) :
    ∑ p ∈ Finset.range n, smooth_line n s f p = ∑ c ∈ Finset.range n, f c := by
  unfold smooth_line
  rw [Finset.sum_comm]
  refine Finset.sum_congr rfl ?_
  intro c hc
  have hcn : c < n := Finset.mem_range.mp hc
  have hlr : c - s ≤ min (c + s) (n - 1) := by omega
  have hsub : Finset.Icc (c - s) (min (c + s) (n - 1)) ⊆ Finset.range n := by
    intro p hp
    have := Finset.mem_Icc.mp hp
    exact Finset.mem_range.mpr (by omega)
  have hmem : ∀ p, (c - s ≤ p ∧ p ≤ min (c + s) (n - 1)) ↔
      p ∈ Finset.Icc (c - s) (min (c + s) (n - 1)) := by
    intro p
    rw [Finset.mem_Icc]
  calc
    ∑ p ∈ Finset.range n,
        (if c - s ≤ p ∧ p ≤ min (c + s) (n - 1) then
          f c / ((min (c + s) (n - 1) - (c - s) + 1 : ℕ) : ℚ) else 0)
      = ∑ p ∈ Finset.range n,
        (if p ∈ Finset.Icc (c - s) (min (c + s) (n - 1)) then
          f c / ((min (c + s) (n - 1) - (c - s) + 1 : ℕ) : ℚ) else 0) := by
        refine Finset.sum_congr rfl ?_
        intro p _
        rw [if_congr (hmem p) rfl rfl]
    _ = ∑ p ∈ Finset.range n ∩ Finset.Icc (c - s) (min (c + s) (n - 1)),
        f c / ((min (c + s) (n - 1) - (c - s) + 1 : ℕ) : ℚ) :=
        Finset.sum_ite_mem _ _ _
    _ = ∑ p ∈ Finset.Icc (c - s) (min (c + s) (n - 1)),
        f c / ((min (c + s) (n - 1) - (c - s) + 1 : ℕ) : ℚ) := by
        rw [Finset.inter_eq_right.mpr hsub]
    _ = ((min (c + s) (n - 1) - (c - s) + 1 : ℕ) : ℚ) *
        (f c / ((min (c + s) (n - 1) - (c - s) + 1 : ℕ) : ℚ)) := by
        rw [Finset.sum_const, Nat.card_Icc, nsmul_eq_mul]
        congr 2
        omega
    _ = f c := by
        rw [mul_div_cancel₀]
        exact Nat.cast_ne_zero.mpr (by omega)

theorem getD_map_range (N : ℕ) (f : ℕ → ℚ) (i : ℕ) (h : i < N) :
    ((List.range N).map f).getD i 0 = f i := by
  rw [List.getD_eq_getElem?_getD, List.getElem?_map, List.getElem?_range h]
  rfl

theorem cell_index_lt {r c rows cols : ℕ} (hr : r < rows) (hc : c < cols) :
    r * cols + c < cols * rows := by
  calc r * cols + c < r * cols + cols := by omega
    _ = (r + 1) * cols := by ring
    _ ≤ rows * cols := Nat.mul_le_mul_right cols hr
    _ = cols * rows := Nat.mul_comm rows cols

/-- C10.  The congestion smoothing step conserves per-line totals: for every
row `r` of the grid, the row sum of `V_routing_cong` after smoothing equals
the row sum before, and for every column `c`, the column sum of
`H_routing_cong` after smoothing equals the column sum before. -/
theorem claim_C10_smoothing_conserves (pc : PlacementCost) :
    (∀ r, r < pc.grid_row →
      ∑ c ∈ Finset.range pc.grid_col,
        pc.smooth_routing_cong.V_routing_cong.getD (r * pc.grid_col + c) 0 =
      ∑ c ∈ Finset.range pc.grid_col,
        pc.V_routing_cong.getD (r * pc.grid_col + c) 0) ∧
    (∀ c, c < pc.grid_col →
      ∑ r ∈ Finset.range pc.grid_row,
        pc.smooth_routing_cong.H_routing_cong.getD (r * pc.grid_col + c) 0 =
      ∑ r ∈ Finset.range pc.grid_row,
        pc.H_routing_cong.getD (r * pc.grid_col + c) 0) := by
  constructor
  · intro r hr
    have hstep : ∀ c ∈ Finset.range pc.grid_col,
        pc.smooth_routing_cong.V_routing_cong.getD (r * pc.grid_col + c) 0 =
        pc.smooth_V_at (fun j => pc.V_routing_cong.getD j 0) r c := by
      intro c hc
      have hcc : c < pc.grid_col := Finset.mem_range.mp hc
      have hcol : 0 < pc.grid_col := by omega
      unfold PlacementCost.smooth_routing_cong
      rw [getD_map_range _ _ _ (cell_index_lt hr hcc)]
      rw [Nat.mul_comm r pc.grid_col, Nat.mul_add_div hcol, Nat.mul_add_mod,
        Nat.div_eq_of_lt hcc, Nat.mod_eq_of_lt hcc, Nat.add_zero]
    rw [Finset.sum_congr rfl hstep]
    exact smooth_line_sum pc.grid_col pc.smooth_range
      (fun c => pc.V_routing_cong.getD (r * pc.grid_col + c) 0)
  · intro c hc
    have hstep : ∀ r ∈ Finset.range pc.grid_row,
        pc.smooth_routing_cong.H_routing_cong.getD (r * pc.grid_col + c) 0 =
        pc.smooth_H_at (fun j => pc.H_routing_cong.getD j 0) r c := by
      intro r hr
      have hrr : r < pc.grid_row := Finset.mem_range.mp hr
      have hcol : 0 < pc.grid_col := by omega
      unfold PlacementCost.smooth_routing_cong
      rw [getD_map_range _ _ _ (cell_index_lt hrr hc)]
      rw [Nat.mul_comm r pc.grid_col, Nat.mul_add_div hcol, Nat.mul_add_mod,
        Nat.div_eq_of_lt hc, Nat.mod_eq_of_lt hc, Nat.add_zero]
    rw [Finset.sum_congr rfl hstep]
    exact smooth_line_sum pc.grid_row pc.smooth_range
      (fun r => pc.H_routing_cong.getD (r * pc.grid_col + c) 0)

/-- Concrete engine for the C10 witness: a 2-by-2 grid with smoothing
half-window 1 and distinct congestion values. -/
def pcW10 : PlacementCost :=
  { modules_w_pins := []
    port_indices := []
    hard_macro_indices := []
    soft_macro_indices := []
    width := 4, height := 4
    grid_col := 2, grid_row := 2
    net_cnt := 1
    hroutes_per_micron := 1, vroutes_per_micron := 1
    hrouting_alloc := 0, vrouting_alloc := 0
    smooth_range := 1
    V_routing_cong := [1, 3, 5, 7]
    H_routing_cong := [2, 4, 6, 8]
    node_mask := fun _ _ => 1
    placed_macros := []
    FLAG_UPDATE_WIRELENGTH := true, FLAG_UPDATE_DENSITY := true
    FLAG_UPDATE_CONGESTION := true, FLAG_UPDATE_NODE_MASK := true }

/-- Witness for C10 at the concrete engine `pcW10`, row 0 and column 1. -/
theorem claim_C10_smoothing_conserves_witness :
    (∑ c ∈ Finset.range pcW10.grid_col,
      pcW10.smooth_routing_cong.V_routing_cong.getD (0 * pcW10.grid_col + c) 0 =
    ∑ c ∈ Finset.range pcW10.grid_col,
      pcW10.V_routing_cong.getD (0 * pcW10.grid_col + c) 0) ∧
    (∑ r ∈ Finset.range pcW10.grid_row,
      pcW10.smooth_routing_cong.H_routing_cong.getD (r * pcW10.grid_col + 1) 0 =
    ∑ r ∈ Finset.range pcW10.grid_row,
      pcW10.H_routing_cong.getD (r * pcW10.grid_col + 1) 0) :=
  ⟨(claim_C10_smoothing_conserves pcW10).1 0 (by decide),
   (claim_C10_smoothing_conserves pcW10).2 1 (by decide)⟩

/-- The grid-write loop pattern of the routing helpers:
`for k in range(count): grid[pos(lo + k)] += weight`, over a flat congestion
grid modeled as a total function on `ℤ` flat indices. -/
def addLoop (pos : ℤ → ℤ) (lo : ℤ) (w : ℚ) (g : ℤ → ℚ) : ℕ → (ℤ → ℚ)
  | 0 => g
  | n + 1 =>
      let g' := addLoop pos lo w g n
      Function.update g' (pos (lo + n)) (g' (pos (lo + n)) + w)

/-- Python `sort(key = lambda x: (x[1], x[0]))` on `(row, col)` cells:
lexicographic in `(col, row)`. -/
def sortByColRow (l : List (ℤ × ℤ)) : List (ℤ × ℤ) :=
  l.insertionSort (fun a b => a.2 < b.2 ∨ (a.2 = b.2 ∧ a.1 ≤ b.1))

/-- Python default `sort()` on `(row, col)` cells: lexicographic in
`(row, col)`. -/
def sortByRowCol (l : List (ℤ × ℤ)) : List (ℤ × ℤ) :=
  l.insertionSort (fun a b => a.1 < b.1 ∨ (a.1 = b.1 ∧ a.2 ≤ b.2))

/-- Model of `__two_pin_net_routing`: pick the sink as the listed cell different from
the source, then add `weight` horizontally along the source row for
`col ∈ [col_min, col_max)` and vertically along the sink column for
`row ∈ [row_min, row_max)`.  The pair is `(H_routing_cong, V_routing_cong)`.
Only ever called with a two-element cell list. -/
def two_pin_net_routing (cols : ℕ) (source : ℤ × ℤ) (node_gcells : List (ℤ × ℤ))
    (w : ℚ) (HV : (ℤ → ℚ) × (ℤ → ℚ)) : (ℤ → ℚ) × (ℤ → ℚ) :=
  match node_gcells with
  | [a, b] =>
      let sink := if a = source then b else a
      let row_min := min sink.1 source.1
      let row_max := max sink.1 source.1
      let col_min := min sink.2 source.2
      let col_max := max sink.2 source.2
      (addLoop (fun col => source.1 * cols + col) col_min w HV.1 (col_max - col_min).toNat,
       addLoop (fun row => row * cols + sink.2) row_min w HV.2 (row_max - row_min).toNat)
  | _ => HV

/-- Model of `__l_routing` for 3-pin nets. -/
def l_routing (cols : ℕ) (node_gcells : List (ℤ × ℤ)) (w : ℚ)
    (HV : (ℤ → ℚ) × (ℤ → ℚ)) : (ℤ → ℚ) × (ℤ → ℚ) :=
  match sortByColRow node_gcells with
  | [(y1, x1), (y2, x2), (y3, x3)] =>
      let H1 := addLoop (fun col => y1 * cols + col) x1 w HV.1 (x2 - x1).toNat
      let H2 := addLoop (fun col => y2 * cols + col) x2 w H1 (x3 - x2).toNat
      let V1 := addLoop (fun row => row * cols + x2) (min y1 y2) w HV.2
        (max y1 y2 - min y1 y2).toNat
      let V2 := addLoop (fun row => row * cols + x3) (min y2 y3) w V1
        (max y2 y3 - min y2 y3).toNat
      (H2, V2)
  | _ => HV

/-- Model of `__t_routing` for 3-pin nets. -/
def t_routing (cols : ℕ) (node_gcells : List (ℤ × ℤ)) (w : ℚ)
    (HV : (ℤ → ℚ) × (ℤ → ℚ)) : (ℤ → ℚ) × (ℤ → ℚ) :=
  match sortByRowCol node_gcells with
  | [(y1, x1), (y2, x2), (y3, x3)] =>
      let H1 := addLoop (fun col => y2 * cols + col) (min x1 (min x2 x3)) w HV.1
        (max x1 (max x2 x3) - min x1 (min x2 x3)).toNat
      let V1 := addLoop (fun row => row * cols + x1) (min y1 y2) w HV.2
        (max y1 y2 - min y1 y2).toNat
      let V2 := addLoop (fun row => row * cols + x3) (min y2 y3) w V1
        (max y2 y3 - min y2 y3).toNat
      (H1, V2)
  | _ => HV

/-- Model of `__three_pin_net_routing`: dispatch between L-shape, the two special
cases and the T-shape on the cells sorted by `(x, y)`. -/
def three_pin_net_routing (cols : ℕ) (node_gcells : List (ℤ × ℤ)) (w : ℚ)
    (HV : (ℤ → ℚ) × (ℤ → ℚ)) : (ℤ → ℚ) × (ℤ → ℚ) :=
  match sortByColRow node_gcells with
  | [(y1, x1), (y2, x2), (y3, x3)] =>
      if x1 < x2 ∧ x2 < x3 ∧ min y1 y3 < y2 ∧ y2 < max y1 y3 then
        l_routing cols (sortByColRow node_gcells) w HV
      else if x2 = x3 ∧ x1 < x2 ∧ y1 < min y2 y3 then
        (addLoop (fun col => y1 * cols + col) x1 w HV.1 (x2 - x1).toNat,
         addLoop (fun row => row * cols + x2) y1 w HV.2 (max y2 y3 - y1).toNat)
      else if y2 = y3 then
        let H1 := addLoop (fun col => y1 * cols + col) x1 w HV.1 (x2 - x1).toNat
        let H2 := addLoop (fun col => y2 * cols + col) x2 w H1 (x3 - x2).toNat
        let V1 := addLoop (fun row => row * cols + x2) (min y2 y1) w HV.2
          (max y2 y1 - min y2 y1).toNat
        (H2, V1)
      else t_routing cols (sortByColRow node_gcells) w HV
  | _ => HV

/-- Model of `__split_net`: one two-cell net `{source, c}` per non-source cell. -/
def split_net (source : ℤ × ℤ) (node_gcells : List (ℤ × ℤ)) : List (List (ℤ × ℤ)) :=
  (node_gcells.filter (fun c => c ≠ source)).map (fun c => [source, c])

/-- The per-net dispatch of `get_routing` on the net's grid-cell set
(`|cells| = 2`, `= 3`, `> 3`; one cell contributes nothing). -/
def route_net (cols : ℕ) (HV : (ℤ → ℚ) × (ℤ → ℚ))
    (n : (ℤ × ℤ) × List (ℤ × ℤ) × ℚ) : (ℤ → ℚ) × (ℤ → ℚ) :=
  if n.2.1.length = 2 then two_pin_net_routing cols n.1 n.2.1 n.2.2 HV
  else if n.2.1.length = 3 then three_pin_net_routing cols n.2.1 n.2.2 HV
  else if 3 < n.2.1.length then
    (split_net n.1 n.2.1).foldl
      (fun hv cells => two_pin_net_routing cols n.1 cells n.2.2 hv) HV
  else HV

/-- The element-wise supply normalization of `get_routing`. -/
def normalize_grid (supply : ℚ) (g : ℤ → ℚ) : ℤ → ℚ :=
  fun idx => g idx / supply

/-- The routing-then-normalization prefix of `get_routing`: route every net
into freshly zeroed `H`/`V` grids, then divide the four congestion grids
element-wise by their per-cell supplies (`grid_height * hroutes_per_micron`
for horizontal grids, `grid_width * vroutes_per_micron` for vertical ones).
The macro congestion grids `Hm`/`Vm` are produced by the macro-routing pass
and only normalized here.  Smoothing and the final net+macro combination
happen after this prefix in the source. -/
def get_routing_pipeline (cols : ℕ) (gw gh vr hr : ℚ)
    (nets : List ((ℤ × ℤ) × List (ℤ × ℤ) × ℚ)) (Hm Vm : ℤ → ℚ) :
    ((ℤ → ℚ) × (ℤ → ℚ)) × ((ℤ → ℚ) × (ℤ → ℚ)) :=
  let HV := nets.foldl (route_net cols) (fun _ => 0, fun _ => 0)
  ((normalize_grid (gh * hr) HV.1, normalize_grid (gw * vr) HV.2),
   (normalize_grid (gh * hr) Hm, normalize_grid (gw * vr) Vm))

namespace PlacementCost

/-- The grid cell of a pin or port, `__get_grid_cell_location` applied to
`__get_pin_position`, as used by the net extraction of `get_routing`. -/
def pin_gcell (pc : PlacementCost) (s : ℕ) : ℤ × ℤ :=
  pc.get_grid_cell_location (pc.get_pin_position s).1 (pc.get_pin_position s).2

/-- The net extraction of `get_routing`'s module loop: a `PORT` or a
`MACRO_PIN` driver with a nonempty sink list yields its source grid cell
(`get_pos` for a port, `__get_pin_position` for a pin), the distinct grid cells
of the source and all resolved sinks (`node_gcells` is a Python `set`, whose
iteration order does not affect the grids accumulated by the routing
dispatch; the deduplicated list stands for it), and the net weight
(`mod.get_weight()` when that exceeds 1, else the default 1; a port always
routes with weight 1).  Macros and sink-less modules contribute no net. -/
def net_of_module (pc : PlacementCost) (idx : ℕ) (m : Module) :
    Option ((ℤ × ℤ) × List (ℤ × ℤ) × ℚ) :=
  match m with
  | Module.Port x y sink _ _ =>
      if sink = [] then none
      else some (pc.get_grid_cell_location x y,
        (pc.get_grid_cell_location x y :: sink.map pc.pin_gcell).dedup, 1)
  | Module.SoftMacroPin _ _ _ w sink =>
      if sink = [] then none
      else some (pc.pin_gcell idx,
        (pc.pin_gcell idx :: sink.map pc.pin_gcell).dedup,
        if 1 < w then w else 1)
  | Module.HardMacroPin _ _ _ _ _ w sink =>
      if sink = [] then none
      else some (pc.pin_gcell idx,
        (pc.pin_gcell idx :: sink.map pc.pin_gcell).dedup,
        if 1 < w then w else 1)
  | _ => none

/-- The `__overlap_dist` of a macro block against grid cell `(r, c)`, shared by
the add and subtract loops of `__macro_route_over_grid_cell`. -/
def macro_route_cell_dist (pc : PlacementCost) (mx my mw mh : ℚ) (r c : ℤ) :
    ℚ × ℚ :=
  overlap_dist
    (Block.mk (mx + mw / 2) (my + mh / 2) (mx - mw / 2) (my - mh / 2))
    (Block.mk ((c + 1) * pc.grid_width) ((r + 1) * pc.grid_height)
      (c * pc.grid_width) (r * pc.grid_height))

/-- The `if_PARTIAL_OVERLAP_VERTICAL` flag of `__macro_route_over_grid_cell` on the
clipped cell rectangle: set when the rectangle spans more than one row and
some traversed cell on the bottom row `bl_row` or top row `ur_row` has a
vertical overlap extent differing from `grid_height` by more than `1e-5`. -/
def macro_route_vsplit (pc : PlacementCost) (mx my mw mh : ℚ)
    (bl_row ur_row bl_col ur_col : ℤ) : Bool :=
  decide (ur_row ≠ bl_row) &&
  (List.range ((ur_col - bl_col + 1).toNat)).any (fun k =>
    decide (1 / 100000 <
      |(pc.macro_route_cell_dist mx my mw mh bl_row (bl_col + k)).2 -
        pc.grid_height|) ||
    decide (1 / 100000 <
      |(pc.macro_route_cell_dist mx my mw mh ur_row (bl_col + k)).2 -
        pc.grid_height|))

/-- The `if_PARTIAL_OVERLAP_HORIZONTAL` flag of `__macro_route_over_grid_cell` on
the clipped cell rectangle: set when the rectangle spans more than one column
and some traversed cell on the left column `bl_col` or right column `ur_col`
has a horizontal overlap extent differing from `grid_width` by more than
`1e-5`. -/
def macro_route_hsplit (pc : PlacementCost) (mx my mw mh : ℚ)
    (bl_row ur_row bl_col ur_col : ℤ) : Bool :=
  decide (ur_col ≠ bl_col) &&
  (List.range ((ur_row - bl_row + 1).toNat)).any (fun k =>
    decide (1 / 100000 <
      |(pc.macro_route_cell_dist mx my mw mh (bl_row + k) bl_col).1 -
        pc.grid_width|) ||
    decide (1 / 100000 <
      |(pc.macro_route_cell_dist mx my mw mh (bl_row + k) ur_col).1 -
        pc.grid_width|))

/-- The `V_macro_routing_cong` contribution of `__macro_route_over_grid_cell` at
cell `(r, c)` in gathered form: out-of-bound macros (negative upper-right
cell) are skipped, the traversed rectangle is clipped to the grid, each
traversed cell gains `x_dist * vrouting_alloc`, and when the partial-overlap
flag is set the subtract loop removes exactly that amount again on every cell
of the top row `ur_row`. -/
def macro_route_v_cell (pc : PlacementCost) (mx my mw mh : ℚ) (r c : ℤ) : ℚ :=
  let ur := pc.get_grid_cell_location (mx + mw / 2) (my + mh / 2)
  let bl := pc.get_grid_cell_location (mx - mw / 2) (my - mh / 2)
  if 0 ≤ ur.1 ∧ 0 ≤ ur.2 then
    let bl_row := max bl.1 0
    let bl_col := max bl.2 0
    let ur_row := min ur.1 ((pc.grid_row : ℤ) - 1)
    let ur_col := min ur.2 ((pc.grid_col : ℤ) - 1)
    if bl_row ≤ r ∧ r ≤ ur_row ∧ bl_col ≤ c ∧ c ≤ ur_col then
      if pc.macro_route_vsplit mx my mw mh bl_row ur_row bl_col ur_col ∧
          r = ur_row then 0
      else (pc.macro_route_cell_dist mx my mw mh r c).1 * pc.vrouting_alloc
    else 0
  else 0

/-- The `H_macro_routing_cong` contribution of `__macro_route_over_grid_cell` at
cell `(r, c)` in gathered form, with the subtract loop cancelling the right
column `ur_col` when the horizontal partial-overlap flag is set. -/
def macro_route_h_cell (pc : PlacementCost) (mx my mw mh : ℚ) (r c : ℤ) : ℚ :=
  let ur := pc.get_grid_cell_location (mx + mw / 2) (my + mh / 2)
  let bl := pc.get_grid_cell_location (mx - mw / 2) (my - mh / 2)
  if 0 ≤ ur.1 ∧ 0 ≤ ur.2 then
    let bl_row := max bl.1 0
    let bl_col := max bl.2 0
    let ur_row := min ur.1 ((pc.grid_row : ℤ) - 1)
    let ur_col := min ur.2 ((pc.grid_col : ℤ) - 1)
    if bl_row ≤ r ∧ r ≤ ur_row ∧ bl_col ≤ c ∧ c ≤ ur_col then
      if pc.macro_route_hsplit mx my mw mh bl_row ur_row bl_col ur_col ∧
          c = ur_col then 0
      else (pc.macro_route_cell_dist mx my mw mh r c).2 * pc.hrouting_alloc
    else 0
  else 0

/-- The macro routing grid `V_macro_routing_cong` built by `get_routing`'s
module loop, gathered at cell `(r, c)`: every module of type `MACRO` accepted
by `is_node_hard_macro` contributes its `__macro_route_over_grid_cell` amount. -/
def V_macro_at (pc : PlacementCost) (r c : ℤ) : ℚ :=
  (pc.modules_w_pins.enum.map (fun p =>
    if p.2.get_type = NodeType.MACRO ∧ p.1 ∈ pc.hard_macro_indices then
      pc.macro_route_v_cell p.2.get_pos.1 p.2.get_pos.2 p.2.get_width
        p.2.get_height r c
    else 0)).sum

/-- The macro routing grid `H_macro_routing_cong` built by `get_routing`'s
module loop, gathered at cell `(r, c)`. -/
def H_macro_at (pc : PlacementCost) (r c : ℤ) : ℚ :=
  (pc.modules_w_pins.enum.map (fun p =>
    if p.2.get_type = NodeType.MACRO ∧ p.1 ∈ pc.hard_macro_indices then
      pc.macro_route_h_cell p.2.get_pos.1 p.2.get_pos.2 p.2.get_width
        p.2.get_height r c
    else 0)).sum

/-- The nets extracted by one pass of `get_routing`'s module loop over
`modules_w_pins`. -/
def net_list (pc : PlacementCost) : List ((ℤ × ℤ) × List (ℤ × ℤ) × ℚ) :=
  pc.modules_w_pins.enum.filterMap (fun p => pc.net_of_module p.1 p.2)

/-- The net congestion grids `(H, V)` accumulated by `get_routing` from the
freshly zeroed grids by routing every extracted net. -/
def routed_HV (pc : PlacementCost) : (ℤ → ℚ) × (ℤ → ℚ) :=
  pc.net_list.foldl (route_net pc.grid_col) (fun _ => 0, fun _ => 0)

/-- The supply-normalized net V grid of `get_routing`
(`v_gcell / (grid_width * vroutes_per_micron)`). -/
def normalized_V (pc : PlacementCost) : ℕ → ℚ :=
  fun i => pc.routed_HV.2 (i : ℤ) / (pc.grid_width * pc.vroutes_per_micron)

/-- The supply-normalized net H grid of `get_routing`
(`h_gcell / (grid_height * hroutes_per_micron)`). -/
def normalized_H (pc : PlacementCost) : ℕ → ℚ :=
  fun i => pc.routed_HV.1 (i : ℤ) / (pc.grid_height * pc.hroutes_per_micron)

/-- The state written back by a completing `get_routing` call entered with the
congestion flag set: each final congestion entry is the smoothed normalized
net grid plus the normalized (unsmoothed) macro grid at that cell, and the
flag is cleared. -/
def routed_state (pc : PlacementCost) : PlacementCost :=
  { pc with
    V_routing_cong := (List.range (pc.grid_col * pc.grid_row)).map (fun i =>
      pc.smooth_V_at pc.normalized_V (i / pc.grid_col) (i % pc.grid_col) +
      pc.V_macro_at ((i / pc.grid_col : ℕ) : ℤ) ((i % pc.grid_col : ℕ) : ℤ) /
        (pc.grid_width * pc.vroutes_per_micron))
    H_routing_cong := (List.range (pc.grid_col * pc.grid_row)).map (fun i =>
      pc.smooth_H_at pc.normalized_H (i / pc.grid_col) (i % pc.grid_col) +
      pc.H_macro_at ((i / pc.grid_col : ℕ) : ℤ) ((i % pc.grid_col : ℕ) : ℤ) /
        (pc.grid_height * pc.hroutes_per_micron))
    FLAG_UPDATE_CONGESTION := false }

/-- Model of `get_routing` as entered by the congestion getters (congestion
flag set): `grid_width = float(width/grid_col)` and
`grid_height = float(height/grid_row)` raise `ZeroDivisionError` when a grid
dimension is 0; otherwise the grids are reset, every net and hard macro is
routed, and the normalization divides each of the (at least one) cells by the
per-cell supplies `grid_width * vroutes_per_micron` and
`grid_height * hroutes_per_micron`, raising `ZeroDivisionError` when either
supply is 0 (when `grid_width` or `grid_height` itself is 0 the gcell
computations of the extraction pass already raise); smoothing divides by
window sizes of at least 1 and the final combination is a sum, so a call with
nonzero supplies completes. -/
def get_routing (pc : PlacementCost) : Except Unit PlacementCost :=
  if pc.grid_col = 0 ∨ pc.grid_row = 0 then Except.error ()
  else if pc.grid_width * pc.vroutes_per_micron = 0 ∨
      pc.grid_height * pc.hroutes_per_micron = 0 then Except.error ()
  else Except.ok pc.routed_state

/-- Model of `get_congestion_cost`: when `FLAG_UPDATE_CONGESTION` is set the
grids are first recomputed through `get_routing` (whose raise propagates),
then `abu(V_routing_cong + H_routing_cong, 0.05)` is taken on the resulting
grids. -/
def get_congestion_cost (pc : PlacementCost) : Except Unit ℚ :=
  if pc.FLAG_UPDATE_CONGESTION then
    match pc.get_routing with
    | Except.error e => Except.error e
    | Except.ok pc2 => abu (pc2.V_routing_cong ++ pc2.H_routing_cong) (1 / 20)
  else abu (pc.V_routing_cong ++ pc.H_routing_cong) (1 / 20)

end PlacementCost

theorem abu_ok_of_ne_nil (xx : List ℚ) (n : ℚ) (h : xx ≠ []) :
    ∃ q, abu xx n = Except.ok q := by
  simp only [abu]
  by_cases hcnt : (⌊(xx.length : ℚ) * n⌋).toNat = 0
  · have hsne : sortDesc xx ≠ [] := by
      intro hs
      apply h
      have hl := sortDesc_length xx
      rw [hs] at hl
      exact List.length_eq_zero.mp hl.symm
    obtain ⟨x, xs, hxx⟩ := List.exists_cons_of_ne_nil hsne
    rw [if_pos hcnt, hxx]
    exact ⟨_, rfl⟩
  · rw [if_neg hcnt]
    exact ⟨_, rfl⟩

theorem abu_all_zero (xx : List ℚ) (n : ℚ) (h : xx ≠ [])
    (hz : ∀ x ∈ xx, x = 0) : abu xx n = Except.ok 0 := by
  simp only [abu]
  by_cases hcnt : (⌊(xx.length : ℚ) * n⌋).toNat = 0
  · have hsne : sortDesc xx ≠ [] := by
      intro hs
      apply h
      have hl := sortDesc_length xx
      rw [hs] at hl
      exact List.length_eq_zero.mp hl.symm
    obtain ⟨x, xs, hxx⟩ := List.exists_cons_of_ne_nil hsne
    rw [if_pos hcnt, hxx]
    dsimp only
    have hmem : ∀ y ∈ x :: xs, y = 0 := fun y hy =>
      hz y (((sortDesc_perm xx).mem_iff).mp (hxx ▸ hy))
    rw [foldMax_of_all_zero x xs (hmem x (List.mem_cons_self x xs))
      (fun y hy => hmem y (List.mem_cons_of_mem x hy))]
  · rw [if_neg hcnt]
    have hsum : ((sortDesc xx).take (⌊(xx.length : ℚ) * n⌋).toNat).sum = 0 := by
      apply List.sum_eq_zero
      intro y hy
      exact hz y (((sortDesc_perm xx).mem_iff).mp (List.mem_of_mem_take hy))
    rw [hsum, zero_div]

theorem smooth_line_zero (n s : ℕ) (f : ℕ → ℚ) (hf : ∀ i, f i = 0) (p : ℕ) :
    smooth_line n s f p = 0 := by
  unfold smooth_line
  apply Finset.sum_eq_zero
  intro c _
  rw [hf c, zero_div, ite_self]

/-- Concrete engine refuting C8: a fresh 3-by-3 grid (9 cells) with all-zero
congestion and no modules, exactly the state produced by
`set_placement_grid(3, 3)` on an empty netlist. -/
def cex8 : PlacementCost :=
  { modules_w_pins := []
    port_indices := []
    hard_macro_indices := []
    soft_macro_indices := []
    width := 10, height := 10
    grid_col := 3, grid_row := 3
    net_cnt := 1
    hroutes_per_micron := 1, vroutes_per_micron := 1
    hrouting_alloc := 0, vrouting_alloc := 0
    smooth_range := 0
    V_routing_cong := List.replicate 9 0
    H_routing_cong := List.replicate 9 0
    node_mask := fun _ _ => 1
    placed_macros := []
    FLAG_UPDATE_WIRELENGTH := true, FLAG_UPDATE_DENSITY := true
    FLAG_UPDATE_CONGESTION := true, FLAG_UPDATE_NODE_MASK := true }

/-- Counterexample to C8 as stated: on a 9-cell grid with no occupied cell,
`get_V_congestion_cost` and `get_density_cost` raise `ZeroDivisionError`
(`sum(occupied)/len(occupied)` with an empty `occupied`), rather than
returning 0. -/
theorem claim_C8_counterexample :
    cex8.get_V_congestion_cost = Except.error () ∧
    cex8.get_density_cost = Except.error () := by
  exact ⟨rfl, rfl⟩

/-- C8 (amended).  `get_V_congestion_cost` and `get_H_congestion_cost` never
raise and return 0 on all-zero grids once the grid has at least 10 cells
(with fewer than 10 cells and no occupied cell they raise
`ZeroDivisionError`, shown by the counterexample); `get_density_cost`
additionally needs a nonzero canvas area, since the density recompute divides
by `grid_area`; `get_congestion_cost` with the congestion flag clear never
raises on nonempty stored grids and returns 0 on all-zero grids, while with
the flag set it reruns `get_routing`, which raises `ZeroDivisionError`
whenever a per-cell routing supply is 0 (in particular on a fresh engine with
the default `routes_per_micron = 0`) and otherwise completes, returning 0 for
an empty netlist. -/
theorem claim_C8_amended_getters (pc : PlacementCost) :
    (10 ≤ pc.V_routing_cong.length →
      (∃ q, pc.get_V_congestion_cost = Except.ok q) ∧
      (pc.V_routing_cong.filter (fun gc => gc ≠ 0) = [] →
        pc.get_V_congestion_cost = Except.ok 0)) ∧
    (10 ≤ pc.H_routing_cong.length →
      (∃ q, pc.get_H_congestion_cost = Except.ok q) ∧
      (pc.H_routing_cong.filter (fun gc => gc ≠ 0) = [] →
        pc.get_H_congestion_cost = Except.ok 0)) ∧
    (10 ≤ pc.grid_col * pc.grid_row →
      pc.grid_width * pc.grid_height ≠ 0 →
      (∃ q, pc.get_density_cost = Except.ok q) ∧
      (pc.grid_cells.filter (fun gc => gc ≠ 0) = [] →
        pc.get_density_cost = Except.ok 0)) ∧
    (pc.FLAG_UPDATE_CONGESTION = false →
      pc.V_routing_cong ++ pc.H_routing_cong ≠ [] →
      (∃ q, pc.get_congestion_cost = Except.ok q) ∧
      ((∀ x ∈ pc.V_routing_cong ++ pc.H_routing_cong, x = 0) →
        pc.get_congestion_cost = Except.ok 0)) ∧
    (pc.FLAG_UPDATE_CONGESTION = true → 0 < pc.grid_col → 0 < pc.grid_row →
      ((pc.grid_width * pc.vroutes_per_micron = 0 ∨
        pc.grid_height * pc.hroutes_per_micron = 0) →
        pc.get_congestion_cost = Except.error ()) ∧
      (pc.grid_width * pc.vroutes_per_micron ≠ 0 →
        pc.grid_height * pc.hroutes_per_micron ≠ 0 →
        (∃ q, pc.get_congestion_cost = Except.ok q) ∧
        (pc.modules_w_pins = [] →
          pc.get_congestion_cost = Except.ok 0))) := by
  refine ⟨?_, ?_, ?_, ?_, ?_⟩
  · intro h10
    have hnot : ¬ pc.V_routing_cong.length < 10 := by omega
    simp only [PlacementCost.get_V_congestion_cost]
    rw [if_neg hnot]
    refine ⟨⟨_, rfl⟩, ?_⟩
    intro hfil
    rw [hfil]
    simp [sortDesc, List.insertionSort]
  · intro h10
    have hnot : ¬ pc.H_routing_cong.length < 10 := by omega
    simp only [PlacementCost.get_H_congestion_cost]
    rw [if_neg hnot]
    refine ⟨⟨_, rfl⟩, ?_⟩
    intro hfil
    rw [hfil]
    simp [sortDesc, List.insertionSort]
  · intro h10 harea
    have hlen := grid_cells_length pc
    have hg1 : ¬ (pc.grid_col = 0 ∨ pc.grid_row = 0) := by
      intro h
      rcases h with h | h <;> rw [h] at h10 <;> simp at h10
    have hnot : ¬ pc.grid_cells.length < 10 := by omega
    simp only [PlacementCost.get_density_cost]
    rw [if_neg hg1, if_neg harea, if_neg hnot]
    refine ⟨⟨_, rfl⟩, ?_⟩
    intro hfil
    rw [hfil]
    simp [sortDesc, List.insertionSort]
  · intro hfl hne
    have hcond : ¬ (pc.FLAG_UPDATE_CONGESTION = true) := by
      rw [hfl]
      exact Bool.false_ne_true
    constructor
    · obtain ⟨q, hq⟩ :=
        abu_ok_of_ne_nil (pc.V_routing_cong ++ pc.H_routing_cong) (1 / 20) hne
      refine ⟨q, ?_⟩
      simp only [PlacementCost.get_congestion_cost]
      rw [if_neg hcond]
      exact hq
    · intro hz
      simp only [PlacementCost.get_congestion_cost]
      rw [if_neg hcond]
      exact abu_all_zero _ _ hne hz
  · intro hfl hc hr
    have hg1 : ¬ (pc.grid_col = 0 ∨ pc.grid_row = 0) := by omega
    constructor
    · intro hsup
      have hroute : pc.get_routing = Except.error () := by
        simp only [PlacementCost.get_routing]
        rw [if_neg hg1, if_pos hsup]
      simp only [PlacementCost.get_congestion_cost]
      rw [if_pos hfl, hroute]
    · intro hsv hsh
      have hsup : ¬ (pc.grid_width * pc.vroutes_per_micron = 0 ∨
          pc.grid_height * pc.hroutes_per_micron = 0) := by
        intro h
        rcases h with h | h
        · exact hsv h
        · exact hsh h
      have hroute : pc.get_routing = Except.ok pc.routed_state := by
        simp only [PlacementCost.get_routing]
        rw [if_neg hg1, if_neg hsup]
      have hlenV : pc.routed_state.V_routing_cong.length =
          pc.grid_col * pc.grid_row := by
        simp only [PlacementCost.routed_state]
        rw [List.length_map, List.length_range]
      have hanil : pc.routed_state.V_routing_cong ++
          pc.routed_state.H_routing_cong ≠ [] := by
        intro h0
        rcases List.append_eq_nil.mp h0 with ⟨h1, _⟩
        have h2 : pc.grid_col * pc.grid_row = 0 := by
          rw [← hlenV, h1]
          rfl
        have := Nat.mul_pos hc hr
        omega
      constructor
      · obtain ⟨q, hq⟩ := abu_ok_of_ne_nil
          (pc.routed_state.V_routing_cong ++ pc.routed_state.H_routing_cong)
          (1 / 20) hanil
        refine ⟨q, ?_⟩
        simp only [PlacementCost.get_congestion_cost]
        rw [if_pos hfl, hroute]
        exact hq
      · intro hmod
        have hnv : ∀ j, pc.normalized_V j = 0 := by
          intro j
          simp only [PlacementCost.normalized_V, PlacementCost.routed_HV,
            PlacementCost.net_list]
          rw [hmod]
          exact zero_div _
        have hnh : ∀ j, pc.normalized_H j = 0 := by
          intro j
          simp only [PlacementCost.normalized_H, PlacementCost.routed_HV,
            PlacementCost.net_list]
          rw [hmod]
          exact zero_div _
        have hmacV : ∀ r c, pc.V_macro_at r c = 0 := by
          intro r c
          simp only [PlacementCost.V_macro_at]
          rw [hmod]
          rfl
        have hmacH : ∀ r c, pc.H_macro_at r c = 0 := by
          intro r c
          simp only [PlacementCost.H_macro_at]
          rw [hmod]
          rfl
        have hzero : ∀ x ∈ pc.routed_state.V_routing_cong ++
            pc.routed_state.H_routing_cong, x = 0 := by
          intro x hx
          rcases List.mem_append.mp hx with hxm | hxm
          · have hV : pc.routed_state.V_routing_cong =
                (List.range (pc.grid_col * pc.grid_row)).map (fun i =>
                  pc.smooth_V_at pc.normalized_V (i / pc.grid_col)
                    (i % pc.grid_col) +
                  pc.V_macro_at ((i / pc.grid_col : ℕ) : ℤ)
                      ((i % pc.grid_col : ℕ) : ℤ) /
                    (pc.grid_width * pc.vroutes_per_micron)) := rfl
            rw [hV] at hxm
            obtain ⟨i, _, rfl⟩ := List.mem_map.mp hxm
            rw [hmacV, zero_div, add_zero]
            simp only [PlacementCost.smooth_V_at]
            exact smooth_line_zero _ _ _ (fun j => hnv _) _
          · have hH : pc.routed_state.H_routing_cong =
                (List.range (pc.grid_col * pc.grid_row)).map (fun i =>
                  pc.smooth_H_at pc.normalized_H (i / pc.grid_col)
                    (i % pc.grid_col) +
                  pc.H_macro_at ((i / pc.grid_col : ℕ) : ℤ)
                      ((i % pc.grid_col : ℕ) : ℤ) /
                    (pc.grid_height * pc.hroutes_per_micron)) := rfl
            rw [hH] at hxm
            obtain ⟨i, _, rfl⟩ := List.mem_map.mp hxm
            rw [hmacH, zero_div, add_zero]
            simp only [PlacementCost.smooth_H_at]
            exact smooth_line_zero _ _ _ (fun j => hnh _) _
        simp only [PlacementCost.get_congestion_cost]
        rw [if_pos hfl, hroute]
        exact abu_all_zero _ _ hanil hzero

/-- Concrete engine for the C8 witness: a 10-by-1 grid with all-zero stored
congestion grids, no modules, and the congestion flag clear. -/
def pcW8 : PlacementCost :=
  { modules_w_pins := []
    port_indices := []
    hard_macro_indices := []
    soft_macro_indices := []
    width := 10, height := 10
    grid_col := 10, grid_row := 1
    net_cnt := 1
    hroutes_per_micron := 1, vroutes_per_micron := 1
    hrouting_alloc := 0, vrouting_alloc := 0
    smooth_range := 0
    V_routing_cong := List.replicate 10 0
    H_routing_cong := List.replicate 10 0
    node_mask := fun _ _ => 1
    placed_macros := []
    FLAG_UPDATE_WIRELENGTH := true, FLAG_UPDATE_DENSITY := true
    FLAG_UPDATE_CONGESTION := false, FLAG_UPDATE_NODE_MASK := true }

/-- The engine `pcW8` with the congestion flag set and nonzero routing
supplies: `get_congestion_cost` reruns `get_routing` and completes. -/
def pcW8b : PlacementCost :=
  { pcW8 with FLAG_UPDATE_CONGESTION := true }

/-- The engine `pcW8b` with the default `vroutes_per_micron = 0` of a fresh
engine: the rerun of `get_routing` divides by a zero supply and raises. -/
def pcW8c : PlacementCost :=
  { pcW8 with FLAG_UPDATE_CONGESTION := true, vroutes_per_micron := 0 }

/-- Witness for the amended C8: at `pcW8` all four getters return 0 on its
empty inputs; at `pcW8b` the flag-set recompute completes with 0; at `pcW8c`
the flag-set recompute raises on the zero vertical supply. -/
theorem claim_C8_amended_getters_witness :
    pcW8.get_V_congestion_cost = Except.ok 0 ∧
    pcW8.get_H_congestion_cost = Except.ok 0 ∧
    pcW8.get_density_cost = Except.ok 0 ∧
    pcW8.get_congestion_cost = Except.ok 0 ∧
    pcW8b.get_congestion_cost = Except.ok 0 ∧
    pcW8c.get_congestion_cost = Except.error () :=
  ⟨((claim_C8_amended_getters pcW8).1 (by decide)).2 (by decide),
   ((claim_C8_amended_getters pcW8).2.1 (by decide)).2 (by decide),
   ((claim_C8_amended_getters pcW8).2.2.1 (by decide) (by decide)).2 (by decide),
   ((claim_C8_amended_getters pcW8).2.2.2.1 (by decide) (by decide)).2 (by decide),
   (((claim_C8_amended_getters pcW8b).2.2.2.2 (by decide) (by decide)
      (by decide)).2 (by decide) (by decide)).2 (by decide),
   ((claim_C8_amended_getters pcW8c).2.2.2.2 (by decide) (by decide)
      (by decide)).1 (Or.inl (by decide))⟩

theorem addLoop_apply_miss (pos : ℤ → ℤ) (lo : ℤ) (w : ℚ) (g : ℤ → ℚ)
    (n : ℕ) (idx : ℤ) (h : ∀ k : ℕ, k < n → pos (lo + k) ≠ idx) :
    addLoop pos lo w g n idx = g idx := by
  induction n with
  | zero => rfl
  | succ m ih =>
      unfold addLoop
      rw [Function.update_noteq (Ne.symm (h m (by omega)))]
      exact ih (fun k hk => h k (by omega))

theorem addLoop_apply_hit (pos : ℤ → ℤ) (lo : ℤ) (w : ℚ) (g : ℤ → ℚ)
    (n : ℕ) (idx : ℤ) (k0 : ℕ) (hk0 : k0 < n) (hpos : pos (lo + k0) = idx)
    (huniq : ∀ k : ℕ, k < n → pos (lo + k) = idx → k = k0) :
    addLoop pos lo w g n idx = g idx + w := by
  induction n with
  | zero => omega
  | succ m ih =>
      unfold addLoop
      by_cases hm : k0 = m
      · subst hm
        rw [hpos, Function.update_same]
        have hmiss : addLoop pos lo w g k0 idx = g idx :=
          addLoop_apply_miss pos lo w g k0 idx
            (fun k hk he => absurd (huniq k (Nat.lt_succ_of_lt hk) he) (Nat.ne_of_lt hk))
        rw [hmiss]
      · have hne : pos (lo + m) ≠ idx := fun he => hm (huniq m (by omega) he).symm
        rw [Function.update_noteq (Ne.symm hne)]
        exact ih (by omega) (fun k hk he => huniq k (by omega) he)

theorem grid_flat_inj {cols : ℕ} {r r' c c' : ℤ} (hcols : 0 < cols)
    (hc0 : 0 ≤ c) (hc : c < cols) (hc0' : 0 ≤ c') (hc' : c' < cols)
    (h : r * cols + c = r' * cols + c') : r = r' ∧ c = c' := by
  by_cases hrr : r = r'
  · subst hrr
    exact ⟨rfl, by omega⟩
  · exfalso
    have h1 : (r - r') * (cols : ℤ) = c' - c := by linarith [h, sub_mul r r' (cols : ℤ)]
    have h2 : |c' - c| < (cols : ℤ) := abs_lt.mpr ⟨by omega, by omega⟩
    have h3 : (cols : ℤ) ≤ |r - r'| * cols := by
      have := Int.one_le_abs (sub_ne_zero.mpr hrr)
      nlinarith [abs_nonneg (r - r')]
    have h4 : |(r - r') * (cols : ℤ)| = |r - r'| * cols := by
      rw [abs_mul, abs_of_nonneg (by positivity : (0:ℤ) ≤ (cols : ℤ))]
    rw [h1] at h4
    omega

theorem addLoop_row_value {cols : ℕ} (hcols : 0 < cols) (A lo hi : ℤ)
    (hlo : 0 ≤ lo) (hhi : hi ≤ cols) (w : ℚ) (g : ℤ → ℚ) (r c : ℤ)
    (hc0 : 0 ≤ c) (hc : c < cols) :
    addLoop (fun col => A * cols + col) lo w g (hi - lo).toNat (r * cols + c) =
      g (r * cols + c) + (if r = A ∧ lo ≤ c ∧ c < hi then w else 0) := by
  by_cases hhit : r = A ∧ lo ≤ c ∧ c < hi
  · obtain ⟨hrA, hlc, hch⟩ := hhit
    rw [if_pos ⟨hrA, hlc, hch⟩]
    refine addLoop_apply_hit _ _ _ _ _ _ (c - lo).toNat (by omega) ?_ ?_
    · have : lo + ((c - lo).toNat : ℤ) = c := by omega
      rw [this, hrA]
    · intro k hk he
      have hkb : lo + (k : ℤ) < hi := by omega
      have hdec := grid_flat_inj hcols (by omega) (by omega) hc0 hc he
      omega
  · rw [if_neg hhit, addLoop_apply_miss]
    · exact (add_zero _).symm
    · intro k hk he
      have hkb : lo + (k : ℤ) < hi := by omega
      have hdec := grid_flat_inj hcols (by omega) (by omega) hc0 hc he
      exact hhit ⟨hdec.1.symm, by omega, by omega⟩

theorem addLoop_col_value {cols : ℕ} (hcols : 0 < cols) (B lo hi : ℤ)
    (hB0 : 0 ≤ B) (hB : B < cols) (w : ℚ) (g : ℤ → ℚ) (r c : ℤ)
    (hc0 : 0 ≤ c) (hc : c < cols) :
    addLoop (fun row => row * cols + B) lo w g (hi - lo).toNat (r * cols + c) =
      g (r * cols + c) + (if c = B ∧ lo ≤ r ∧ r < hi then w else 0) := by
  by_cases hhit : c = B ∧ lo ≤ r ∧ r < hi
  · obtain ⟨hcB, hlr, hrh⟩ := hhit
    rw [if_pos ⟨hcB, hlr, hrh⟩]
    refine addLoop_apply_hit _ _ _ _ _ _ (r - lo).toNat (by omega) ?_ ?_
    · have : lo + ((r - lo).toNat : ℤ) = r := by omega
      rw [this, hcB]
    · intro k hk he
      have hdec := grid_flat_inj hcols hB0 hB hc0 hc he
      omega
  · rw [if_neg hhit, addLoop_apply_miss]
    · exact (add_zero _).symm
    · intro k hk he
      have hdec := grid_flat_inj hcols hB0 hB hc0 hc he
      exact hhit ⟨hdec.2.symm, by omega, by omega⟩

/-- C3.  For a net whose driver and sinks land in exactly the two distinct
grid cells `(r_s, c_s)` (driver) and `(r_t, c_t)` (in either listing order
of the Python set), `get_routing` adds `w` to `H_routing_cong` at row `r_s`
for every column in `[min(c_s,c_t), max(c_s,c_t))` and to `V_routing_cong`
at column `c_t` for every row in `[min(r_s,r_t), max(r_s,r_t))`, and then
divides each of the four congestion grids element-wise by its per-cell
supply (`grid_height * h_routes_per_micron` horizontally,
`grid_width * v_routes_per_micron` vertically). -/
theorem claim_C3_two_pin_routing (cols : ℕ) (gw gh vr hr w : ℚ)
    (rs cs rt ct : ℤ) (l : List (ℤ × ℤ)) (Hm Vm : ℤ → ℚ)
    (hcols : 0 < cols)
    (hcs0 : 0 ≤ cs) (hcs : cs < cols) (hct0 : 0 ≤ ct) (hct : ct < cols)
    (hne : (rs, cs) ≠ (rt, ct))
    (hl : l = [(rs, cs), (rt, ct)] ∨ l = [(rt, ct), (rs, cs)]) :
    (∀ r c : ℤ, 0 ≤ c → c < cols →
      (get_routing_pipeline cols gw gh vr hr [((rs, cs), l, w)] Hm Vm).1.1
          (r * cols + c) =
        (if r = rs ∧ min cs ct ≤ c ∧ c < max cs ct then w else 0) / (gh * hr) ∧
      (get_routing_pipeline cols gw gh vr hr [((rs, cs), l, w)] Hm Vm).1.2
          (r * cols + c) =
        (if c = ct ∧ min rs rt ≤ r ∧ r < max rs rt then w else 0) / (gw * vr)) ∧
    (∀ idx : ℤ,
      (get_routing_pipeline cols gw gh vr hr [((rs, cs), l, w)] Hm Vm).2.1 idx =
        Hm idx / (gh * hr) ∧
      (get_routing_pipeline cols gw gh vr hr [((rs, cs), l, w)] Hm Vm).2.2 idx =
        Vm idx / (gw * vr)) := by
  have hsink : two_pin_net_routing cols (rs, cs) l w (fun _ => 0, fun _ => 0) =
      (addLoop (fun col => rs * (cols : ℤ) + col) (min ct cs) w (fun _ => 0)
        (max ct cs - min ct cs).toNat,
       addLoop (fun row => row * (cols : ℤ) + ct) (min rt rs) w (fun _ => 0)
        (max rt rs - min rt rs).toNat) := by
    rcases hl with h | h <;> subst h
    · simp [two_pin_net_routing]
    · have hns : ¬ ((rt, ct) : ℤ × ℤ) = (rs, cs) := fun hEq => hne hEq.symm
      simp [two_pin_net_routing, hns]
  have hlen : l.length = 2 := by rcases hl with h | h <;> subst h <;> rfl
  have hpipe : get_routing_pipeline cols gw gh vr hr [((rs, cs), l, w)] Hm Vm =
      ((normalize_grid (gh * hr)
          (addLoop (fun col => rs * (cols : ℤ) + col) (min ct cs) w (fun _ => 0)
            (max ct cs - min ct cs).toNat),
        normalize_grid (gw * vr)
          (addLoop (fun row => row * (cols : ℤ) + ct) (min rt rs) w (fun _ => 0)
            (max rt rs - min rt rs).toNat)),
       (normalize_grid (gh * hr) Hm, normalize_grid (gw * vr) Vm)) := by
    unfold get_routing_pipeline
    rw [List.foldl_cons, List.foldl_nil]
    unfold route_net
    rw [if_pos hlen, hsink]
  rw [hpipe]
  refine ⟨?_, fun idx => ⟨rfl, rfl⟩⟩
  intro r c hc0 hc
  constructor
  · show addLoop (fun col => rs * (cols : ℤ) + col) (min ct cs) w (fun _ => 0)
        (max ct cs - min ct cs).toNat (r * cols + c) / (gh * hr) = _
    rw [addLoop_row_value hcols rs (min ct cs) (max ct cs) (by omega) (by omega)
      w (fun _ => 0) r c hc0 hc]
    rw [min_comm ct cs, max_comm ct cs]
    rw [zero_add]
  · show addLoop (fun row => row * (cols : ℤ) + ct) (min rt rs) w (fun _ => 0)
        (max rt rs - min rt rs).toNat (r * cols + c) / (gw * vr) = _
    rw [addLoop_col_value hcols ct (min rt rs) (max rt rs) hct0 hct
      w (fun _ => 0) r c hc0 hc]
    rw [min_comm rt rs, max_comm rt rs]
    rw [zero_add]

/-- Witness for C3 on a concrete net: driver cell `(0,1)`, sink cell `(2,3)`
on a 4-column grid with `grid_height * h_routes_per_micron = 3`; the
horizontal congestion picks up `w / 3 = 2/3` at row 0, column 2. -/
theorem claim_C3_two_pin_routing_witness :
    (get_routing_pipeline 4 2 3 1 1
      [(((0 : ℤ), (1 : ℤ)), [((0 : ℤ), (1 : ℤ)), ((2 : ℤ), (3 : ℤ))], 2)]
      (fun _ => 5) (fun _ => 5)).1.1 ((0 : ℤ) * 4 + 2) = 2 / 3 := by
  have h := (claim_C3_two_pin_routing 4 2 3 1 1 2 0 1 2 3
      [((0 : ℤ), (1 : ℤ)), ((2 : ℤ), (3 : ℤ))] (fun _ => 5) (fun _ => 5)
      (by norm_num) (by norm_num) (by norm_num) (by norm_num) (by norm_num)
      (by decide) (Or.inl rfl)).1 0 2 (by norm_num) (by norm_num)
  have h1 := h.1
  norm_num [min_def, max_def] at h1 ⊢
  exact h1

namespace PlacementCost

/-- The footprint used by `get_node_mask`: a point-sized `1e-3 × 1e-3` box
for `PORT`/`MACRO_PIN` modules, the module's own width and height otherwise. -/
def mask_dims (pc : PlacementCost) (node_idx : ℕ) : ℚ × ℚ :=
  if (pc.modAt node_idx).get_type = NodeType.PORT ∨
      (pc.modAt node_idx).get_type = NodeType.MACRO_PIN
  then (1 / 1000, 1 / 1000)
  else ((pc.modAt node_idx).get_width, (pc.modAt node_idx).get_height)

/-- The candidate bounding box of `get_node_mask`, centered at the center of
grid cell `(i, j)`. -/
def mask_block (pc : PlacementCost) (node_idx i j : ℕ) : Block :=
  Block.mk
    ((j : ℚ) * pc.grid_width + pc.grid_width / 2 + (pc.mask_dims node_idx).1 / 2)
    ((i : ℚ) * pc.grid_height + pc.grid_height / 2 + (pc.mask_dims node_idx).2 / 2)
    ((j : ℚ) * pc.grid_width + pc.grid_width / 2 - (pc.mask_dims node_idx).1 / 2)
    ((i : ℚ) * pc.grid_height + pc.grid_height / 2 - (pc.mask_dims node_idx).2 / 2)

/-- The bounding box of an already placed module, as built inside
`get_node_mask`. -/
def placed_block (pc : PlacementCost) (p : ℕ) : Block :=
  Block.mk
    ((pc.modAt p).get_pos.1 + (pc.modAt p).get_width / 2)
    ((pc.modAt p).get_pos.2 + (pc.modAt p).get_height / 2)
    ((pc.modAt p).get_pos.1 - (pc.modAt p).get_width / 2)
    ((pc.modAt p).get_pos.2 - (pc.modAt p).get_height / 2)

/-- The canvas block `(x_max=width, y_max=height, x_min=0, y_min=0)`. -/
def canvas_block (pc : PlacementCost) : Block :=
  Block.mk pc.width pc.height 0 0

/-- One cell of `get_node_mask`: `0` when the candidate box fails the
out-of-bound check `abs(overlap_area(canvas, box) - w*h) > 1e-8`, `0` when
it positively overlaps some module of `placed_macro` whose placed flag is
set, else `1`. -/
def get_node_mask_at (pc : PlacementCost) (node_idx i j : ℕ) : ℕ :=
  if 1 / 100000000 <
      |overlap_area pc.canvas_block (pc.mask_block node_idx i j) -
        (pc.mask_dims node_idx).1 * (pc.mask_dims node_idx).2| then 0
  else if pc.placed_macros.any (fun pmod_idx =>
      (pc.modAt pmod_idx).get_placed_flag &&
        decide (0 < overlap_area (pc.placed_block pmod_idx)
          (pc.mask_block node_idx i j)))
    then 0 else 1

/-- Model of `get_node_mask`, flattened row-major as in the source. -/
def get_node_mask (pc : PlacementCost) (node_idx : ℕ) : List ℕ :=
  (List.range (pc.grid_row * pc.grid_col)).map
    (fun k => pc.get_node_mask_at node_idx (k / pc.grid_col) (k % pc.grid_col))

end PlacementCost

/-- Claim-side predicate, following the specification's words: the bounding
box lies entirely within the canvas. -/
def box_within_canvas_spec (pc : PlacementCost) (b : Block) : Prop :=
  0 ≤ b.x_min ∧ b.x_max ≤ pc.width ∧ 0 ≤ b.y_min ∧ b.y_max ≤ pc.height

instance (pc : PlacementCost) (b : Block) : Decidable (box_within_canvas_spec pc b) :=
  inferInstanceAs
    (Decidable (0 ≤ b.x_min ∧ b.x_max ≤ pc.width ∧ 0 ≤ b.y_min ∧ b.y_max ≤ pc.height))

theorem overlap_area_nonneg (bi bj : Block) : 0 ≤ overlap_area bi bj := by
  simp only [overlap_area]
  split_ifs with h
  · exact mul_nonneg h.1 h.2
  · exact le_refl 0

/-- Concrete engine refuting C4 as stated: a `(10 + 1e-10)`-sided square
macro on a 10-by-10 canvas with a single grid cell.  Its centered box sticks
out of the canvas, but the out-of-bound check of `get_node_mask` only
rejects canvas-overlap deficits above `1e-8`. -/
def cex4 : PlacementCost :=
  { modules_w_pins :=
      [Module.SoftMacro 5 5 (10 + 1 / 10000000000) (10 + 1 / 10000000000)
        none false true]
    port_indices := []
    hard_macro_indices := []
    soft_macro_indices := [0]
    width := 10, height := 10
    grid_col := 1, grid_row := 1
    net_cnt := 1
    hroutes_per_micron := 1, vroutes_per_micron := 1
    hrouting_alloc := 0, vrouting_alloc := 0
    smooth_range := 0
    V_routing_cong := [0]
    H_routing_cong := [0]
    node_mask := fun _ _ => 1
    placed_macros := []
    FLAG_UPDATE_WIRELENGTH := true, FLAG_UPDATE_DENSITY := true
    FLAG_UPDATE_CONGESTION := true, FLAG_UPDATE_NODE_MASK := true }

/-- Counterexample to C4 as stated: the mask bit at cell `(0,0)` is `1`
although the module's bounding box does not lie entirely within the canvas
(its overlap deficit `2e-9 + 1e-20` is below the `1e-8` tolerance). -/
theorem claim_C4_counterexample :
    cex4.get_node_mask_at 0 0 0 = 1 ∧
    ¬ box_within_canvas_spec cex4 (cex4.mask_block 0 0 0) := by
  constructor
  · decide
  · decide

/-- C4 (amended).  `get_node_mask(i)[c] = 1` iff the module's bounding box
centered at the center of cell `c` (point-sized `1e-3` for ports and pins)
overlaps the canvas in all but at most `1e-8` of its area, and has zero
overlap area with every module of the placed list whose placed flag is set;
exact canvas containment fails only within the `1e-8` tolerance (see the
counterexample). -/
theorem claim_C4_amended_node_mask (pc : PlacementCost) (node_idx i j : ℕ) :
    pc.get_node_mask_at node_idx i j = 1 ↔
      (|overlap_area pc.canvas_block (pc.mask_block node_idx i j) -
          (pc.mask_dims node_idx).1 * (pc.mask_dims node_idx).2| ≤ 1 / 100000000 ∧
       ∀ p ∈ pc.placed_macros, (pc.modAt p).get_placed_flag = true →
         overlap_area (pc.placed_block p) (pc.mask_block node_idx i j) = 0) := by
  unfold PlacementCost.get_node_mask_at
  by_cases h1 : 1 / 100000000 <
      |overlap_area pc.canvas_block (pc.mask_block node_idx i j) -
        (pc.mask_dims node_idx).1 * (pc.mask_dims node_idx).2|
  · rw [if_pos h1]
    exact iff_of_false (by norm_num) (fun hc => absurd hc.1 (not_le.mpr h1))
  · rw [if_neg h1]
    by_cases h2 : pc.placed_macros.any (fun pmod_idx =>
        (pc.modAt pmod_idx).get_placed_flag &&
          decide (0 < overlap_area (pc.placed_block pmod_idx)
            (pc.mask_block node_idx i j))) = true
    · rw [if_pos h2]
      obtain ⟨p, hp, hbody⟩ := List.any_eq_true.mp h2
      rw [Bool.and_eq_true, decide_eq_true_iff] at hbody
      refine iff_of_false (by norm_num) (fun hc => ?_)
      have := hc.2 p hp hbody.1
      exact absurd (this ▸ hbody.2) (lt_irrefl 0)
    · rw [if_neg h2]
      refine iff_of_true rfl ⟨not_lt.mp h1, fun p hp hflag => ?_⟩
      have hnot : ¬ ((pc.modAt p).get_placed_flag = true ∧
          0 < overlap_area (pc.placed_block p) (pc.mask_block node_idx i j)) := by
        intro hcontra
        exact h2 (List.any_eq_true.mpr ⟨p, hp,
          by rw [Bool.and_eq_true, decide_eq_true_iff]; exact hcontra⟩)
      have hle : ¬ 0 < overlap_area (pc.placed_block p) (pc.mask_block node_idx i j) :=
        fun hlt => hnot ⟨hflag, hlt⟩
      exact le_antisymm (not_lt.mp hle) (overlap_area_nonneg _ _)

/-- The per-pin offset update performed by `update_macro_orientation` on the
pin's currently stored offset. -/
def orient_offset (o : Orientation) (p : ℚ × ℚ) : ℚ × ℚ :=
  match o with
  | Orientation.N => p
  | Orientation.FN => (-p.1, p.2)
  | Orientation.S => (-p.1, -p.2)
  | Orientation.FS => (p.1, -p.2)
  | Orientation.E => (p.2, -p.1)
  | Orientation.FE => (-p.2, -p.1)
  | Orientation.W => (-p.2, p.1)
  | Orientation.FW => (p.2, p.1)

/-- Claim-side: the orientation table of specification section 4.7, mapping a
pin offset `(dx, dy)` to `(dx', dy')`. -/
def orient_table_spec (o : Orientation) (p : ℚ × ℚ) : ℚ × ℚ :=
  match o with
  | Orientation.N => (p.1, p.2)
  | Orientation.FN => (-p.1, p.2)
  | Orientation.S => (-p.1, -p.2)
  | Orientation.FS => (p.1, -p.2)
  | Orientation.E => (p.2, -p.1)
  | Orientation.FE => (-p.2, -p.1)
  | Orientation.W => (-p.2, p.1)
  | Orientation.FW => (p.2, p.1)

namespace PlacementCost

/-- Model of `update_macro_orientation(node_idx, orientation)`: set the macro's
orientation, then transform the stored offset of each of the macro's pins
(the source iterates `hard_macros_to_inpins[macro_name]`, i.e. exactly the
hard-macro pins whose `macro_name` resolves to `node_idx`). -/
def update_macro_orientation (pc : PlacementCost) (node_idx : ℕ)
    (o : Orientation) : PlacementCost :=
  { pc with modules_w_pins := pc.modules_w_pins.enum.map (fun p =>
      if p.1 = node_idx then p.2.set_orientation o
      else
        match p.2 with
        | Module.HardMacroPin x y dx dy r w s =>
            if r = node_idx then
              Module.HardMacroPin x y (orient_offset o (dx, dy)).1
                (orient_offset o (dx, dy)).2 r w s
            else Module.HardMacroPin x y dx dy r w s
        | m => m) }

end PlacementCost

theorem modAt_of_lt (pc : PlacementCost) (idx : ℕ)
    (h : idx < pc.modules_w_pins.length) :
    pc.modAt idx = pc.modules_w_pins[idx] := by
  unfold PlacementCost.modAt
  rw [List.getD_eq_getElem?_getD, List.getElem?_eq_getElem h]
  rfl

theorem getD_map_enum (l : List Module) (f : ℕ × Module → Module) (idx : ℕ)
    (d : Module) (h : idx < l.length) :
    (l.enum.map f).getD idx d = f (idx, l[idx]) := by
  rw [List.getD_eq_getElem?_getD, List.getElem?_map,
    List.getElem?_eq_getElem (by simpa using h : idx < l.enum.length)]
  simp

theorem update_macro_orientation_length (pc : PlacementCost) (midx : ℕ)
    (o : Orientation) :
    (pc.update_macro_orientation midx o).modules_w_pins.length =
      pc.modules_w_pins.length := by
  unfold PlacementCost.update_macro_orientation
  simp

theorem update_macro_orientation_pin (pc : PlacementCost) (midx pidx : ℕ)
    (o : Orientation) (x y dx dy w : ℚ) (s : List ℕ)
    (hlen : pidx < pc.modules_w_pins.length)
    (hpin : pc.modAt pidx = Module.HardMacroPin x y dx dy midx w s)
    (hne : pidx ≠ midx) :
    (pc.update_macro_orientation midx o).modAt pidx =
      Module.HardMacroPin x y (orient_offset o (dx, dy)).1
        (orient_offset o (dx, dy)).2 midx w s := by
  have hget : pc.modules_w_pins[pidx] = Module.HardMacroPin x y dx dy midx w s := by
    rw [← modAt_of_lt pc pidx hlen]
    exact hpin
  unfold PlacementCost.update_macro_orientation PlacementCost.modAt
  rw [getD_map_enum _ _ _ _ hlen, hget]
  rw [if_neg hne]
  dsimp only
  rw [if_pos rfl]

/-- Concrete engine for C6: one hard macro with a single pin at stored
offset `(1, 2)`. -/
def cex6 : PlacementCost :=
  { modules_w_pins :=
      [Module.HardMacro 0 0 4 4 Orientation.N false true,
       Module.HardMacroPin 0 0 1 2 0 1 []]
    port_indices := []
    hard_macro_indices := [0]
    soft_macro_indices := []
    width := 10, height := 10
    grid_col := 10, grid_row := 10
    net_cnt := 1
    hroutes_per_micron := 1, vroutes_per_micron := 1
    hrouting_alloc := 0, vrouting_alloc := 0
    smooth_range := 0
    V_routing_cong := List.replicate 100 0
    H_routing_cong := List.replicate 100 0
    node_mask := fun _ _ => 1
    placed_macros := [0]
    FLAG_UPDATE_WIRELENGTH := true, FLAG_UPDATE_DENSITY := true
    FLAG_UPDATE_CONGESTION := true, FLAG_UPDATE_NODE_MASK := true }

/-- Counterexample to C6 as stated: calling `update_macro_orientation` twice
with `FW` returns the pin offset to `(1, 2)` (the transform is applied to
the stored offset each time, so two `FW`s compose to the identity), which is
not the table value `(2, 1)` of section 4.7. -/
theorem claim_C6_counterexample :
    (((cex6.update_macro_orientation 0 Orientation.FW).update_macro_orientation
        0 Orientation.FW).modAt 1).get_offset = (1, 2) ∧
    orient_table_spec Orientation.FW (1, 2) = (2, 1) ∧
    ((1, 2) : ℚ × ℚ) ≠ (2, 1) := by
  refine ⟨by decide, by decide, by decide⟩

/-- C6 (amended).  One call of `update_macro_orientation` with orientation
`o` transforms a hard-macro pin's stored offset exactly by the table of
section 4.7 (`orient_offset` agrees with the table on every input, in
particular `FW` maps `(1, 2)` to `(2, 1)`); setting the orientation twice
consecutively applies the table's transform twice, so the offset equals the
table applied to the once-transformed offset — for non-idempotent rows such
as `FW` this differs from the table value of the original offset. -/
theorem claim_C6_amended_orientation (pc : PlacementCost) (midx pidx : ℕ)
    (o : Orientation) (x y dx dy w : ℚ) (s : List ℕ)
    (hlen : pidx < pc.modules_w_pins.length)
    (hpin : pc.modAt pidx = Module.HardMacroPin x y dx dy midx w s)
    (hne : pidx ≠ midx) :
    (∀ o' p, orient_offset o' p = orient_table_spec o' p) ∧
    ((pc.update_macro_orientation midx o).modAt pidx).get_offset =
      orient_table_spec o (dx, dy) ∧
    (((pc.update_macro_orientation midx o).update_macro_orientation midx o).modAt
        pidx).get_offset =
      orient_table_spec o (orient_table_spec o (dx, dy)) := by
  have htable : ∀ o' p, orient_offset o' p = orient_table_spec o' p := by
    intro o' p
    cases o' <;> rfl
  have h1 := update_macro_orientation_pin pc midx pidx o x y dx dy w s hlen hpin hne
  have hlen1 : pidx < (pc.update_macro_orientation midx o).modules_w_pins.length := by
    rw [update_macro_orientation_length]
    exact hlen
  have h2 := update_macro_orientation_pin (pc.update_macro_orientation midx o)
    midx pidx o x y
    (orient_offset o (dx, dy)).1 (orient_offset o (dx, dy)).2 w s hlen1 (by
      rw [h1]) hne
  refine ⟨htable, ?_, ?_⟩
  · rw [h1]
    unfold Module.get_offset
    rw [htable]
  · rw [h2]
    unfold Module.get_offset
    rw [htable, htable]

/-- Witness for the amended C6 at the concrete engine `cex6` with
orientation `FW` and offset `(1, 2)`. -/
theorem claim_C6_amended_orientation_witness :
    ((cex6.update_macro_orientation 0 Orientation.FW).modAt 1).get_offset =
      orient_table_spec Orientation.FW (1, 2) ∧
    (((cex6.update_macro_orientation 0 Orientation.FW).update_macro_orientation
        0 Orientation.FW).modAt 1).get_offset =
      orient_table_spec Orientation.FW (orient_table_spec Orientation.FW (1, 2)) :=
  ⟨(claim_C6_amended_orientation cex6 0 1 Orientation.FW 0 0 1 2 1 []
      (by decide) (by decide) (by decide)).2.1,
   (claim_C6_amended_orientation cex6 0 1 Orientation.FW 0 0 1 2 1 []
      (by decide) (by decide) (by decide)).2.2⟩

namespace PlacementCost

/-- Model of `__get_grid_location_position(col, row)`: the center of grid cell
`(row, col)`. -/
def get_grid_location_position (pc : PlacementCost) (col row : ℕ) : ℚ × ℚ :=
  (pc.grid_width * col + pc.grid_width / 2,
   pc.grid_height * row + pc.grid_height / 2)

/-- Model of `__get_grid_cell_position(grid_cell_idx)` with
`row = idx // grid_col`, `col = idx % grid_col`; for an out-of-range index
this extrapolates beyond the canvas, exactly as the source does. -/
def get_grid_cell_position (pc : PlacementCost) (grid_cell_idx : ℕ) : ℚ × ℚ :=
  pc.get_grid_location_position (grid_cell_idx % pc.grid_col)
    (grid_cell_idx / pc.grid_col)

/-- Model of `__node_pad_cell`: `(ceil((w/2 - gw/2)/gw), ceil((h/2 - gh/2)/gh))`. -/
def node_pad_cell (pc : PlacementCost) (mod_width mod_height : ℚ) : ℤ × ℤ :=
  (⌈(mod_width / 2 - pc.grid_width / 2) / pc.grid_width⌉,
   ⌈(mod_height / 2 - pc.grid_height / 2) / pc.grid_height⌉)

end PlacementCost

/-- Membership of index `i` in the Python/numpy slice `[start:stop]` of an
axis of length `n`: a negative bound is first shifted by `n`, then bounds
are clipped to the axis. -/
def py_slice_mem (n : ℕ) (start stop : ℤ) (i : ℕ) : Bool :=
  decide ((if start < 0 then (n : ℤ) + start else start) ≤ (i : ℤ)) &&
  decide ((i : ℤ) < min (n : ℤ) (if stop < 0 then (n : ℤ) + stop else stop))

namespace PlacementCost

/-- Model of `__place_node_mask(grid_cell_idx, mod_width, mod_height)`: zero the
numpy region `node_mask[row-ver_pad : row+ver_pad+1, col-hor_pad : col+hor_pad+1]`
(with Python slice semantics for negative bounds). -/
def place_node_mask (pc : PlacementCost) (grid_cell_idx : ℕ)
    (mod_width mod_height : ℚ) : ℕ → ℕ → ℕ :=
  fun r c =>
    if py_slice_mem pc.grid_row
        ((grid_cell_idx / pc.grid_col : ℕ) - (pc.node_pad_cell mod_width mod_height).2)
        ((grid_cell_idx / pc.grid_col : ℕ) + (pc.node_pad_cell mod_width mod_height).2 + 1) r ∧
       py_slice_mem pc.grid_col
        ((grid_cell_idx % pc.grid_col : ℕ) - (pc.node_pad_cell mod_width mod_height).1)
        ((grid_cell_idx % pc.grid_col : ℕ) + (pc.node_pad_cell mod_width mod_height).1 + 1) c
    then 0 else pc.node_mask r c

/-- Model of `place_node(node_idx, grid_cell_idx)` after its module-type check: a
fixed module is left untouched; otherwise the module is moved to the cell
center (out-of-range cell indices only print a warning and fall through to
an extrapolated center), marked placed, appended to `placed_macro`, the
three metric flags are dirtied (the node-mask flag line is commented out in
the source) and the node mask is stamped. -/
def place_node (pc : PlacementCost) (node_idx grid_cell_idx : ℕ) : PlacementCost :=
  if (pc.modAt node_idx).get_fix_flag then pc
  else
    { pc with
      modules_w_pins := pc.modules_w_pins.enum.map (fun p =>
        if p.1 = node_idx then
          (p.2.set_pos (pc.get_grid_cell_position grid_cell_idx)).set_placed_flag true
        else p.2)
      placed_macros := pc.placed_macros ++ [node_idx]
      node_mask := pc.place_node_mask grid_cell_idx (pc.modAt node_idx).get_width
        (pc.modAt node_idx).get_height
      FLAG_UPDATE_CONGESTION := true
      FLAG_UPDATE_DENSITY := true
      FLAG_UPDATE_WIRELENGTH := true }

/-- Model of `unplace_node(node_idx)`: a warning no-op on fixed modules; hard macros
are unplaced and removed from `placed_macro`, soft macros only unplaced,
ports untouched. -/
def unplace_node (pc : PlacementCost) (node_idx : ℕ) : PlacementCost :=
  if (pc.modAt node_idx).get_fix_flag then pc
  else if node_idx ∈ pc.hard_macro_indices then
    { pc with
      modules_w_pins := pc.modules_w_pins.enum.map (fun p =>
        if p.1 = node_idx then p.2.set_placed_flag false else p.2)
      placed_macros := pc.placed_macros.erase node_idx
      FLAG_UPDATE_CONGESTION := true
      FLAG_UPDATE_DENSITY := true
      FLAG_UPDATE_WIRELENGTH := true }
  else if node_idx ∈ pc.soft_macro_indices then
    { pc with
      modules_w_pins := pc.modules_w_pins.enum.map (fun p =>
        if p.1 = node_idx then p.2.set_placed_flag false else p.2)
      FLAG_UPDATE_CONGESTION := true
      FLAG_UPDATE_DENSITY := true
      FLAG_UPDATE_WIRELENGTH := true }
  else pc

end PlacementCost

theorem get_pos_set_pos_set_placed (m : Module) (q : ℚ × ℚ) :
    ((m.set_pos q).set_placed_flag true).get_pos = q := by
  cases m <;> rfl

theorem get_placed_set_pos_set_placed (m : Module) (q : ℚ × ℚ) :
    ((m.set_pos q).set_placed_flag true).get_placed_flag = true := by
  cases m <;> rfl

/-- Concrete engine refuting C7 as stated: one unfixed soft macro at the
origin on a 2-by-2 grid. -/
def cex7 : PlacementCost :=
  { modules_w_pins := [Module.SoftMacro 0 0 1 1 none false true]
    port_indices := []
    hard_macro_indices := []
    soft_macro_indices := [0]
    width := 2, height := 2
    grid_col := 2, grid_row := 2
    net_cnt := 1
    hroutes_per_micron := 1, vroutes_per_micron := 1
    hrouting_alloc := 0, vrouting_alloc := 0
    smooth_range := 0
    V_routing_cong := List.replicate 4 0
    H_routing_cong := List.replicate 4 0
    node_mask := fun _ _ => 1
    placed_macros := []
    FLAG_UPDATE_WIRELENGTH := true, FLAG_UPDATE_DENSITY := true
    FLAG_UPDATE_CONGESTION := true, FLAG_UPDATE_NODE_MASK := true }

/-- Counterexample to C7 as stated: cell index 4 is out of range on the
2-by-2 grid (valid indices are 0..3), yet `place_node(0, 4)` still moves the
unfixed module, to the extrapolated center `(1/2, 5/2)` outside the canvas. -/
theorem claim_C7_counterexample :
    (cex7.modAt 0).get_fix_flag = false ∧
    cex7.grid_col * cex7.grid_row ≤ 4 ∧
    ((cex7.place_node 0 4).modAt 0).get_pos = (1 / 2, 5 / 2) ∧
    (cex7.modAt 0).get_pos = (0, 0) ∧
    ((1 / 2, 5 / 2) : ℚ × ℚ) ≠ (0, 0) := by
  refine ⟨by decide, by decide, by decide, by decide, by decide⟩

/-- C7 (amended).  `place_node` and `unplace_node` leave a fixed module's
engine state completely unchanged; on a non-fixed module `place_node` sets
the position to the center of cell `cell_idx` (extrapolated when `cell_idx`
is out of range — the out-of-range warning does not stop the placement),
sets the placed flag, appends `idx` to `placed_macro`, stamps the padded
zero-region into `node_mask`, and moves no other module. -/
theorem claim_C7_amended_place_node (pc : PlacementCost) (node_idx grid_cell_idx : ℕ) :
    ((pc.modAt node_idx).get_fix_flag = true →
      pc.place_node node_idx grid_cell_idx = pc ∧ pc.unplace_node node_idx = pc) ∧
    ((pc.modAt node_idx).get_fix_flag = false →
      node_idx < pc.modules_w_pins.length →
      (((pc.place_node node_idx grid_cell_idx).modAt node_idx).get_pos =
          pc.get_grid_cell_position grid_cell_idx ∧
        ((pc.place_node node_idx grid_cell_idx).modAt node_idx).get_placed_flag = true) ∧
      (pc.place_node node_idx grid_cell_idx).placed_macros =
        pc.placed_macros ++ [node_idx] ∧
      (pc.place_node node_idx grid_cell_idx).node_mask =
        pc.place_node_mask grid_cell_idx (pc.modAt node_idx).get_width
          (pc.modAt node_idx).get_height ∧
      (∀ j, j < pc.modules_w_pins.length → j ≠ node_idx →
        (pc.place_node node_idx grid_cell_idx).modAt j = pc.modAt j)) := by
  constructor
  · intro hfix
    constructor
    · unfold PlacementCost.place_node
      rw [if_pos hfix]
    · unfold PlacementCost.unplace_node
      rw [if_pos hfix]
  · intro hfix hlen
    have hnfix : ¬ ((pc.modAt node_idx).get_fix_flag = true) := by
      rw [hfix]
      exact Bool.false_ne_true
    have hself : (pc.place_node node_idx grid_cell_idx).modAt node_idx =
        ((pc.modAt node_idx).set_pos
          (pc.get_grid_cell_position grid_cell_idx)).set_placed_flag true := by
      unfold PlacementCost.place_node
      rw [if_neg hnfix]
      unfold PlacementCost.modAt
      rw [getD_map_enum _ _ _ _ hlen]
      dsimp only
      rw [if_pos rfl, List.getD_eq_getElem?_getD, List.getElem?_eq_getElem hlen]
      rfl
    have hothers : ∀ j, j < pc.modules_w_pins.length → j ≠ node_idx →
        (pc.place_node node_idx grid_cell_idx).modAt j = pc.modAt j := by
      intro j hj hne
      unfold PlacementCost.place_node
      rw [if_neg hnfix]
      unfold PlacementCost.modAt
      rw [getD_map_enum _ _ _ _ hj]
      dsimp only
      rw [if_neg hne, List.getD_eq_getElem?_getD, List.getElem?_eq_getElem hj]
      rfl
    refine ⟨⟨?_, ?_⟩, ?_, ?_, hothers⟩
    · rw [hself]
      exact get_pos_set_pos_set_placed _ _
    · rw [hself]
      exact get_placed_set_pos_set_placed _ _
    · unfold PlacementCost.place_node
      rw [if_neg hnfix]
    · unfold PlacementCost.place_node
      rw [if_neg hnfix]

/-- Witness for the amended C7: placing the unfixed module of `cex7` into
cell 1 puts it at that cell's center `(3/2, 1/2)` and appends it to the
placed list. -/
theorem claim_C7_amended_place_node_witness :
    ((cex7.place_node 0 1).modAt 0).get_pos = (3 / 2, 1 / 2) ∧
    (cex7.place_node 0 1).placed_macros = [0] := by
  have h := (claim_C7_amended_place_node cex7 0 1).2 (by decide) (by decide)
  exact ⟨h.1.1.trans (by decide), h.2.1.trans (by decide)⟩

/-- Number of decimal digits of `n` (`0` for `0`), by fuelled structural
recursion so that it evaluates in the kernel. -/
def digits10Aux : ℕ → ℕ → ℕ
  | 0, _ => 0
  | fuel + 1, n => if n = 0 then 0 else digits10Aux fuel (n / 10) + 1

/-- Number of decimal digits of a natural number. -/
def digits10 (n : ℕ) : ℕ := digits10Aux n n

/-- The decimal exponent of a nonzero rational: the `e` with
`10^e ≤ |q| < 10^(e+1)`, computed from digit counts of numerator and
denominator with a one-off correction. -/
def ratExp10 (q : ℚ) : ℤ :=
  let e0 : ℤ := (digits10 q.num.natAbs : ℤ) - (digits10 q.den : ℤ)
  if (10 : ℚ) ^ e0 ≤ |q| then e0 else e0 - 1

/-- Round a rational to the nearest integer, ties to even. -/
def halfEvenRound (x : ℚ) : ℤ :=
  if x - ⌊x⌋ < 1 / 2 then ⌊x⌋
  else if 1 / 2 < x - ⌊x⌋ then ⌊x⌋ + 1
  else if ⌊x⌋ % 2 = 0 then ⌊x⌋ else ⌊x⌋ + 1

/-- The numeric effect of writing a coordinate with Python's
`"{:g}".format` (which prints 6 significant decimal digits, correctly
rounded with ties to even) and parsing the decimal text back in
`restore_placement`: rounding to 6 significant decimal digits. -/
def gRound (q : ℚ) : ℚ :=
  if q = 0 then 0
  else
    (if q < 0 then -1 else 1) *
      halfEvenRound (|q| / 10 ^ (ratExp10 q - 5)) * 10 ^ (ratExp10 q - 5)

/-- Whether Python renders the saved value `v` with `"{:g}"` in exponent
notation with a positive exponent: for a value already rounded to 6
significant digits this happens exactly when `|v| >= 1e6`, and the rendered
text then contains a `+` (as in `2e+06`).  The data-line tokenizer
`re.findall(r'[0-9A-Za-z\.\-]+', line)` of `restore_placement` splits such a
token at the `+`, the line fails the 5-field check and is dropped, and the
index-set assertion then calls `exit(1)`.  Negative exponents as in `1e-05`
contain no `+`, stay one token and parse back as floats. -/
def plc_line_splits (v : ℚ) : Bool :=
  decide ((1000000 : ℚ) ≤ |v|)

/-- One data line of a `.plc` placement file:
`<index> <x> <y> <orientation|-> <fixed>`. -/
structure PlcRecord where
  idx : ℕ
  x : ℚ
  y : ℚ
  orient : Option Orientation
  fixed : Bool
deriving DecidableEq, Repr

/-- Python `sorted` on index lists. -/
def sortNat (l : List ℕ) : List ℕ := l.insertionSort (· ≤ ·)

namespace PlacementCost

/-- Model of `save_placement`: one record per placeable index (hard macros, soft
macros, ports) in ascending index order; coordinates go through the `%g`
round-trip `gRound`, orientation `None` is serialized as `-`. -/
def save_placement (pc : PlacementCost) : List PlcRecord :=
  (sortNat (pc.hard_macro_indices ++ pc.soft_macro_indices ++ pc.port_indices)).map
    (fun i => PlcRecord.mk i (gRound (pc.modAt i).get_pos.1)
      (gRound (pc.modAt i).get_pos.2) (pc.modAt i).get_orientation
      (pc.modAt i).get_fix_flag)

end PlacementCost

/-- The restore-loop body of `restore_placement` for one record: set the
position, set the orientation unless the file holds `-`, set the fixed
flag. -/
def apply_plc_record (r : PlcRecord) (m : Module) : Module :=
  (match r.orient with
   | some o => (m.set_pos (r.x, r.y)).set_orientation o
   | none => m.set_pos (r.x, r.y)).set_fix_flag r.fixed

namespace PlacementCost

/-- The successful tail of `restore_placement`: apply every parsed record to
its module and set all four dirty flags.  (The index-set validation against
the netlist succeeds when every line parsed back.) -/
def restore_apply (pc : PlacementCost) (records : List PlcRecord) :
    PlacementCost :=
  { pc with
    modules_w_pins := records.foldl
      (fun ms r => ms.modify (apply_plc_record r) r.idx) pc.modules_w_pins
    FLAG_UPDATE_CONGESTION := true
    FLAG_UPDATE_DENSITY := true
    FLAG_UPDATE_WIRELENGTH := true
    FLAG_UPDATE_NODE_MASK := true }

/-- Model of `restore_placement` on the records of a saved file: a record one
of whose `%g`-rendered coordinates carries a positive decimal exponent
(magnitude at least `1e6`) splits into six tokens under the line tokenizer,
fails the 5-field check and is dropped, after which the assertion comparing
the restored index set with the netlist's placeable indices aborts via
`exit(1)` (modeled as `Except.error`); otherwise every record parses back,
is applied to its module, and all four dirty flags are set. -/
def restore_placement (pc : PlacementCost) (records : List PlcRecord) :
    Except Unit PlacementCost :=
  if records.any (fun r => plc_line_splits r.x || plc_line_splits r.y) then
    Except.error ()
  else Except.ok (pc.restore_apply records)

end PlacementCost

theorem foldl_modify_not_mem (records : List PlcRecord) (ms : List Module)
    (i : ℕ) (h : ∀ r ∈ records, r.idx ≠ i) :
    (records.foldl (fun ms r => ms.modify (apply_plc_record r) r.idx) ms)[i]? =
      ms[i]? := by
  induction records generalizing ms with
  | nil => rfl
  | cons r rs ih =>
      rw [List.foldl_cons]
      rw [ih _ (fun r' hr' => h r' (List.mem_cons_of_mem r hr'))]
      exact List.getElem?_modify_ne _ _ (h r (List.mem_cons_self r rs))

theorem foldl_modify_mem (records : List PlcRecord) (ms : List Module)
    (i : ℕ) (r0 : PlcRecord) (hmem : r0 ∈ records) (hidx : r0.idx = i)
    (hnodup : (records.map PlcRecord.idx).Nodup) :
    (records.foldl (fun ms r => ms.modify (apply_plc_record r) r.idx) ms)[i]? =
      (apply_plc_record r0) <$> ms[i]? := by
  induction records generalizing ms with
  | nil => exact absurd hmem (List.not_mem_nil r0)
  | cons r rs ih =>
      rw [List.map_cons, List.nodup_cons] at hnodup
      rw [List.foldl_cons]
      by_cases hr : r.idx = i
      · have hr0 : r0 = r := by
          rcases List.mem_cons.mp hmem with h | h
          · exact h
          · exfalso
            exact hnodup.1 (by
              rw [hr, ← hidx]
              exact List.mem_map_of_mem PlcRecord.idx h)
        subst hr0
        rw [foldl_modify_not_mem _ _ _ (fun r' hr' hi => hnodup.1 (by
          rw [hidx, ← hi]
          exact List.mem_map_of_mem PlcRecord.idx hr'))]
        rw [← hidx]
        exact List.getElem?_modify_eq _ _ _
      · have hr0 : r0 ∈ rs := by
          rcases List.mem_cons.mp hmem with h | h
          · exact absurd (h ▸ hidx) hr
          · exact h
        rw [ih _ hr0 hnodup.2]
        rw [List.getElem?_modify_ne _ _ (by omega : r.idx ≠ i)]

theorem apply_saved_record (m : Module) (i : ℕ) :
    apply_plc_record
      (PlcRecord.mk i (gRound m.get_pos.1) (gRound m.get_pos.2)
        m.get_orientation m.get_fix_flag) m =
      m.set_pos (gRound m.get_pos.1, gRound m.get_pos.2) := by
  cases m with
  | Port x y s f pl => rfl
  | SoftMacro x y w h o f pl => cases o <;> rfl
  | HardMacro x y w h o f pl => rfl
  | SoftMacroPin x y r w s => rfl
  | HardMacroPin x y dx dy r w s => rfl

theorem get_pos_set_pos (m : Module) (q : ℚ × ℚ) : (m.set_pos q).get_pos = q := by
  cases m <;> rfl

theorem get_orientation_set_pos (m : Module) (q : ℚ × ℚ) :
    (m.set_pos q).get_orientation = m.get_orientation := by
  cases m <;> rfl

theorem get_fix_flag_set_pos (m : Module) (q : ℚ × ℚ) :
    (m.set_pos q).get_fix_flag = m.get_fix_flag := by
  cases m <;> rfl

theorem set_pos_self (m : Module) : m.set_pos m.get_pos = m := by
  cases m <;> rfl

theorem sortNat_perm (l : List ℕ) : (sortNat l).Perm l :=
  List.perm_insertionSort _ l

/-- Concrete engine refuting C5 as stated: a single port whose `x`
coordinate `1.234567` carries 7 significant digits, one more than `"{:g}"`
writes. -/
def cex5 : PlacementCost :=
  { modules_w_pins := [Module.Port (1234567 / 1000000) 0 [] true true]
    port_indices := [0]
    hard_macro_indices := []
    soft_macro_indices := []
    width := 10, height := 10
    grid_col := 10, grid_row := 10
    net_cnt := 1
    hroutes_per_micron := 1, vroutes_per_micron := 1
    hrouting_alloc := 0, vrouting_alloc := 0
    smooth_range := 0
    V_routing_cong := List.replicate 100 0
    H_routing_cong := List.replicate 100 0
    node_mask := fun _ _ => 1
    placed_macros := []
    FLAG_UPDATE_WIRELENGTH := true, FLAG_UPDATE_DENSITY := true
    FLAG_UPDATE_CONGESTION := true, FLAG_UPDATE_NODE_MASK := true }

/-- Counterexample to C5 as stated: `save_placement` writes coordinates with
`"{:g}"` (6 significant digits), so restoring the saved file completes but
moves the port at `x = 1.234567` to `x = 1.23457` — the round trip is not
the identity on positions. -/
theorem claim_C5_counterexample :
    cex5.restore_placement cex5.save_placement =
      Except.ok (cex5.restore_apply cex5.save_placement) ∧
    ((cex5.restore_apply cex5.save_placement).modAt 0).get_pos ≠
      (cex5.modAt 0).get_pos :=
  ⟨rfl, by decide⟩

/-- C5 (amended).  On the records saved from the same engine: when no saved
coordinate reaches `1e6` in magnitude (every `%g` rendering stays in
fixed-point notation) `restore_placement` completes; when some saved
coordinate reaches `1e6` its exponent-form token splits under the tokenizer,
the record is dropped and the index-set assertion aborts (`exit(1)`).  A
completing round trip maps every placeable module's position through the
6-significant-digit `%g` rounding `gRound` and is the identity on its
orientation and fixed flag; in particular it is the identity on the whole
triple exactly when both coordinates are fixed points of `gRound` (at most 6
significant digits). -/
theorem claim_C5_amended_roundtrip (pc : PlacementCost) (i : ℕ)
    (hnodup : (pc.hard_macro_indices ++ pc.soft_macro_indices ++
      pc.port_indices).Nodup)
    (hmem : i ∈ pc.hard_macro_indices ++ pc.soft_macro_indices ++ pc.port_indices)
    (hlen : i < pc.modules_w_pins.length) :
    ((∀ r ∈ pc.save_placement, plc_line_splits r.x = false ∧
        plc_line_splits r.y = false) →
      pc.restore_placement pc.save_placement =
        Except.ok (pc.restore_apply pc.save_placement)) ∧
    ((∃ r ∈ pc.save_placement, plc_line_splits r.x = true ∨
        plc_line_splits r.y = true) →
      pc.restore_placement pc.save_placement = Except.error ()) ∧
    ((pc.restore_apply pc.save_placement).modAt i).get_pos =
      (gRound (pc.modAt i).get_pos.1, gRound (pc.modAt i).get_pos.2) ∧
    ((pc.restore_apply pc.save_placement).modAt i).get_orientation =
      (pc.modAt i).get_orientation ∧
    ((pc.restore_apply pc.save_placement).modAt i).get_fix_flag =
      (pc.modAt i).get_fix_flag ∧
    (gRound (pc.modAt i).get_pos.1 = (pc.modAt i).get_pos.1 →
      gRound (pc.modAt i).get_pos.2 = (pc.modAt i).get_pos.2 →
      (pc.restore_apply pc.save_placement).modAt i = pc.modAt i) := by
  have hrecnodup : (pc.save_placement.map PlcRecord.idx).Nodup := by
    unfold PlacementCost.save_placement
    rw [List.map_map]
    have hid : (PlcRecord.idx ∘ fun i => PlcRecord.mk i
        (gRound (pc.modAt i).get_pos.1) (gRound (pc.modAt i).get_pos.2)
        (pc.modAt i).get_orientation (pc.modAt i).get_fix_flag) = id := rfl
    rw [hid, List.map_id]
    exact (List.Perm.nodup_iff (sortNat_perm _)).mpr hnodup
  have hr0mem : PlcRecord.mk i (gRound (pc.modAt i).get_pos.1)
      (gRound (pc.modAt i).get_pos.2) (pc.modAt i).get_orientation
      (pc.modAt i).get_fix_flag ∈ pc.save_placement := by
    unfold PlacementCost.save_placement
    exact List.mem_map_of_mem _ ((sortNat_perm _).mem_iff.mpr hmem)
  have hres := foldl_modify_mem pc.save_placement pc.modules_w_pins i
    (PlcRecord.mk i (gRound (pc.modAt i).get_pos.1)
      (gRound (pc.modAt i).get_pos.2) (pc.modAt i).get_orientation
      (pc.modAt i).get_fix_flag) hr0mem rfl hrecnodup
  have hmodAt : (pc.restore_apply pc.save_placement).modAt i =
      (pc.modAt i).set_pos
        (gRound (pc.modAt i).get_pos.1, gRound (pc.modAt i).get_pos.2) := by
    unfold PlacementCost.restore_apply PlacementCost.modAt
    rw [List.getD_eq_getElem?_getD, hres, List.getElem?_eq_getElem hlen]
    rw [← modAt_of_lt pc i hlen]
    exact apply_saved_record (pc.modAt i) i
  refine ⟨?_, ?_, ?_, ?_, ?_, ?_⟩
  · intro hok
    simp only [PlacementCost.restore_placement]
    have hany : ¬ (pc.save_placement.any
        (fun r => plc_line_splits r.x || plc_line_splits r.y) = true) := by
      rw [List.any_eq_true]
      rintro ⟨r, hr, hp⟩
      rcases hok r hr with ⟨h1, h2⟩
      rw [h1, h2] at hp
      exact Bool.false_ne_true hp
    rw [if_neg hany]
  · intro hex
    simp only [PlacementCost.restore_placement]
    have hany : pc.save_placement.any
        (fun r => plc_line_splits r.x || plc_line_splits r.y) = true := by
      rw [List.any_eq_true]
      obtain ⟨r, hr, hp⟩ := hex
      refine ⟨r, hr, ?_⟩
      rcases hp with h | h
      · rw [h]
        rfl
      · rw [h]
        exact Bool.or_true _
    rw [if_pos hany]
  · rw [hmodAt]
    exact get_pos_set_pos _ _
  · rw [hmodAt]
    exact get_orientation_set_pos _ _
  · rw [hmodAt]
    exact get_fix_flag_set_pos _ _
  · intro hx hy
    rw [hmodAt, hx, hy]
    exact set_pos_self _

/-- The engine `cex5` with its port moved to `x = 2000000`: the `%g`
rendering `2e+06` splits under the restore tokenizer and the restore
aborts. -/
def cex5b : PlacementCost :=
  { cex5 with modules_w_pins := [Module.Port 2000000 0 [] true true] }

/-- Witness for the amended C5: at `cex5` every saved coordinate stays in
fixed-point notation, the restore completes and the triple facts hold; at
`cex5b` the saved `x = 2e+06` splits and the restore aborts. -/
theorem claim_C5_amended_roundtrip_witness :
    cex5.restore_placement cex5.save_placement =
      Except.ok (cex5.restore_apply cex5.save_placement) ∧
    ((cex5.restore_apply cex5.save_placement).modAt 0).get_pos =
      (gRound (cex5.modAt 0).get_pos.1, gRound (cex5.modAt 0).get_pos.2) ∧
    ((cex5.restore_apply cex5.save_placement).modAt 0).get_orientation =
      (cex5.modAt 0).get_orientation ∧
    ((cex5.restore_apply cex5.save_placement).modAt 0).get_fix_flag =
      (cex5.modAt 0).get_fix_flag ∧
    cex5b.restore_placement cex5b.save_placement = Except.error () :=
  ⟨(claim_C5_amended_roundtrip cex5 0 (by decide) (by decide) (by decide)).1
     (by decide),
   (claim_C5_amended_roundtrip cex5 0 (by decide) (by decide) (by decide)).2.2.1,
   (claim_C5_amended_roundtrip cex5 0 (by decide) (by decide)
     (by decide)).2.2.2.1,
   (claim_C5_amended_roundtrip cex5 0 (by decide) (by decide)
     (by decide)).2.2.2.2.1,
   (claim_C5_amended_roundtrip cex5b 0 (by decide) (by decide)
     (by decide)).2.1 (by decide)⟩

open scoped Classical

/-- Model of `__ifOverlap` with zero displacement arguments: the square-approximated
boxes (side = `get_height()`) of the two modules intersect. -/
def ifOverlap (ux uy uside vx vy vside : ℝ) : Prop :=
  ux - uside / 2 < vx + vside / 2 ∧ vx - vside / 2 < ux + uside / 2 ∧
  vy - vside / 2 < uy + uside / 2 ∧ uy - uside / 2 < vy + vside / 2

/-- Model of `__repulsive_force_hard_macro` on the soft macro `(xi, yi, hi)` and the
hard macro `(xj, yj, hj)` (the source's parameter named `h_node_i` is in
fact the soft index at every call site).  At exactly coincident centers the
branch computes `x_dist / hypo_dist` with `hypo_dist = 0.0`, a Python
`ZeroDivisionError`, modeled as `Except.error`. -/
noncomputable def repulsive_force_hard_macro (rf xi yi hi xj yj hj : ℝ) :
    Except Unit (ℝ × ℝ) :=
  if rf = 0 then Except.ok (0, 0)
  else if Real.sqrt ((xi - xj) ^ 2 + (yi - yj) ^ 2) ≤ 1 / 10000000000 ∨
      ifOverlap xi yi hi xj yj hj then
    if Real.sqrt ((xi - xj) ^ 2 + (yi - yj) ^ 2) = 0 then Except.error ()
    else Except.ok
      ((xi - xj) / Real.sqrt ((xi - xj) ^ 2 + (yi - yj) ^ 2) * (hi / 2 + hj / 2),
       (yi - yj) / Real.sqrt ((xi - xj) ^ 2 + (yi - yj) ^ 2) * (hi / 2 + hj / 2))
  else Except.ok (0, 0)

/-- The non-crashing value of the repulsive force (defined whenever the two
centers differ). -/
noncomputable def repulsive_force_val (rf xi yi hi xj yj hj : ℝ) : ℝ × ℝ :=
  if rf = 0 then (0, 0)
  else if Real.sqrt ((xi - xj) ^ 2 + (yi - yj) ^ 2) ≤ 1 / 10000000000 ∨
      ifOverlap xi yi hi xj yj hj then
    ((xi - xj) / Real.sqrt ((xi - xj) ^ 2 + (yi - yj) ^ 2) * (hi / 2 + hj / 2),
     (yi - yj) / Real.sqrt ((xi - xj) ^ 2 + (yi - yj) ^ 2) * (hi / 2 + hj / 2))
  else (0, 0)

/-- The accumulation loop of the SOFT_HARD block of `__fd_placement`: sum
the repulsive forces from every hard macro onto one soft macro. -/
noncomputable def soft_hard_accum (rf : ℝ) (s : ℝ × ℝ × ℝ)
    (hard : List (ℝ × ℝ × ℝ)) : Except Unit (ℝ × ℝ) :=
  hard.foldl (fun acc j =>
    match acc, repulsive_force_hard_macro rf s.1 s.2.1 s.2.2 j.1 j.2.1 j.2.2 with
    | Except.ok a, Except.ok f => Except.ok (a.1 + f.1, a.2 + f.2)
    | Except.error e, _ => Except.error e
    | Except.ok _, Except.error e => Except.error e) (Except.ok (0, 0))

/-- The maximum absolute value over the nonzero displacement components,
replaced by `1.0` when that maximum is zero (the division guard of
`__fd_placement`). -/
noncomputable def max_disp_component (xs : List ℝ) : ℝ :=
  if xs.foldl (fun m v => if v ≠ 0 then max m |v| else m) 0 = 0 then 1
  else xs.foldl (fun m v => if v ≠ 0 then max m |v| else m) 0

/-- The full SOFT_HARD repulsion block: accumulate per-soft displacement
sums, then divide each axis by its maximum absolute component and scale by
`4.0`. -/
noncomputable def soft_hard_repel_disp (rf : ℝ) (soft hard : List (ℝ × ℝ × ℝ)) :
    Except Unit (List (ℝ × ℝ)) :=
  match soft.mapM (fun s => soft_hard_accum rf s hard) with
  | Except.error e => Except.error e
  | Except.ok accs =>
      Except.ok (accs.map (fun a =>
        (4 * a.1 / max_disp_component (accs.map Prod.fst),
         4 * a.2 / max_disp_component (accs.map Prod.snd))))

/-- The per-soft-macro accumulated force sums, written as plain sums. -/
noncomputable def soft_hard_sum (rf : ℝ) (s : ℝ × ℝ × ℝ)
    (hard : List (ℝ × ℝ × ℝ)) : ℝ × ℝ :=
  ((hard.map (fun j => (repulsive_force_val rf s.1 s.2.1 s.2.2 j.1 j.2.1 j.2.2).1)).sum,
   (hard.map (fun j => (repulsive_force_val rf s.1 s.2.1 s.2.2 j.1 j.2.1 j.2.2).2)).sum)

theorem sqrt_dist_pos {xi yi xj yj : ℝ} (hne : (xi, yi) ≠ (xj, yj)) :
    0 < Real.sqrt ((xi - xj) ^ 2 + (yi - yj) ^ 2) := by
  apply Real.sqrt_pos.mpr
  have hor : xi ≠ xj ∨ yi ≠ yj := by
    by_contra hcon
    push_neg at hcon
    exact hne (Prod.ext hcon.1 hcon.2)
  rcases hor with h | h
  · have h1 : 0 < (xi - xj) ^ 2 := pow_two_pos_of_ne_zero (sub_ne_zero.mpr h)
    nlinarith [sq_nonneg (yi - yj)]
  · have h1 : 0 < (yi - yj) ^ 2 := pow_two_pos_of_ne_zero (sub_ne_zero.mpr h)
    nlinarith [sq_nonneg (xi - xj)]

theorem repulsive_force_ok (rf xi yi hi xj yj hj : ℝ)
    (hne : (xi, yi) ≠ (xj, yj)) :
    repulsive_force_hard_macro rf xi yi hi xj yj hj =
      Except.ok (repulsive_force_val rf xi yi hi xj yj hj) := by
  have hs := sqrt_dist_pos hne
  unfold repulsive_force_hard_macro repulsive_force_val
  by_cases h0 : rf = 0
  · rw [if_pos h0, if_pos h0]
  · rw [if_neg h0, if_neg h0]
    by_cases hbr : Real.sqrt ((xi - xj) ^ 2 + (yi - yj) ^ 2) ≤ 1 / 10000000000 ∨
        ifOverlap xi yi hi xj yj hj
    · rw [if_pos hbr, if_pos hbr, if_neg (ne_of_gt hs)]
    · rw [if_neg hbr, if_neg hbr]

theorem soft_hard_accum_ok (rf : ℝ) (s : ℝ × ℝ × ℝ) (hard : List (ℝ × ℝ × ℝ))
    (hall : ∀ j ∈ hard, (s.1, s.2.1) ≠ (j.1, j.2.1)) :
    soft_hard_accum rf s hard = Except.ok (soft_hard_sum rf s hard) := by
  unfold soft_hard_accum soft_hard_sum
  have aux : ∀ (l : List (ℝ × ℝ × ℝ)) (a : ℝ × ℝ),
      (∀ j ∈ l, (s.1, s.2.1) ≠ (j.1, j.2.1)) →
      l.foldl (fun acc j =>
        match acc, repulsive_force_hard_macro rf s.1 s.2.1 s.2.2 j.1 j.2.1 j.2.2 with
        | Except.ok a, Except.ok f => Except.ok (a.1 + f.1, a.2 + f.2)
        | Except.error e, _ => Except.error e
        | Except.ok _, Except.error e => Except.error e) (Except.ok a) =
      Except.ok
        (a.1 + (l.map (fun j =>
          (repulsive_force_val rf s.1 s.2.1 s.2.2 j.1 j.2.1 j.2.2).1)).sum,
         a.2 + (l.map (fun j =>
          (repulsive_force_val rf s.1 s.2.1 s.2.2 j.1 j.2.1 j.2.2).2)).sum) := by
    intro l
    induction l with
    | nil =>
        intro a _
        simp
    | cons j js ih =>
        intro a hl
        rw [List.foldl_cons,
          repulsive_force_ok rf s.1 s.2.1 s.2.2 j.1 j.2.1 j.2.2
            (hl j (List.mem_cons_self j js))]
        rw [ih _ (fun j' hj' => hl j' (List.mem_cons_of_mem j hj'))]
        simp only [List.map_cons, List.sum_cons]
        congr 1
        apply Prod.ext <;> dsimp <;> ring
  have h := aux hard (0, 0) hall
  rw [h]
  congr 1
  apply Prod.ext <;> dsimp <;> ring

theorem mapM_accum_ok (rf : ℝ) (soft hard : List (ℝ × ℝ × ℝ))
    (hall : ∀ s ∈ soft, ∀ j ∈ hard, (s.1, s.2.1) ≠ (j.1, j.2.1)) :
    soft.mapM (fun s => soft_hard_accum rf s hard) =
      Except.ok (soft.map (fun s => soft_hard_sum rf s hard)) := by
  induction soft with
  | nil => rfl
  | cons s ss ih =>
      rw [List.mapM_cons,
        soft_hard_accum_ok rf s hard (hall s (List.mem_cons_self s ss)),
        ih (fun s' hs' => hall s' (List.mem_cons_of_mem s hs'))]
      rfl

/-- Counterexample to C9 as stated: at exactly identical centers
(`r = 0 ≤ 1e-10`) the computation divides by `hypo_dist = 0` and raises
`ZeroDivisionError` instead of being defined. -/
theorem claim_C9_counterexample :
    repulsive_force_hard_macro 1 5 5 2 5 5 2 = Except.error () := by
  unfold repulsive_force_hard_macro
  rw [if_neg (one_ne_zero : (1 : ℝ) ≠ 0)]
  have hs : Real.sqrt (((5 : ℝ) - 5) ^ 2 + ((5 : ℝ) - 5) ^ 2) = 0 := by
    norm_num
  rw [if_pos (Or.inl (by rw [hs]; norm_num)), if_pos hs]

/-- C9 (amended).  For distinct centers the soft-hard repulsion is total:
it pushes the soft macro by `(d/r) * (h_i/2 + h_j/2)` exactly when the
square-approximated macros overlap or `r ≤ 1e-10`, and contributes `(0, 0)`
otherwise; at exactly coincident centers (`r = 0`) it raises
`ZeroDivisionError` (see the counterexample).  The accumulated per-soft
displacement sums are then each divided by the maximum absolute nonzero
component of their axis (`1.0` when all vanish) and scaled by `4.0`. -/
theorem claim_C9_amended_repulsion (rf : ℝ) (soft hard : List (ℝ × ℝ × ℝ))
    (xi yi hi xj yj hj : ℝ) (hrf : rf ≠ 0)
    (hne : (xi, yi) ≠ (xj, yj))
    (hall : ∀ s ∈ soft, ∀ j ∈ hard, (s.1, s.2.1) ≠ (j.1, j.2.1)) :
    ( repulsive_force_hard_macro rf xi yi hi xj yj hj =
      Except.ok (repulsive_force_val rf xi yi hi xj yj hj)) ∧
    ((Real.sqrt ((xi - xj) ^ 2 + (yi - yj) ^ 2) ≤ 1 / 10000000000 ∨
        ifOverlap xi yi hi xj yj hj) →
      repulsive_force_val rf xi yi hi xj yj hj =
        ((xi - xj) / Real.sqrt ((xi - xj) ^ 2 + (yi - yj) ^ 2) * (hi / 2 + hj / 2),
         (yi - yj) / Real.sqrt ((xi - xj) ^ 2 + (yi - yj) ^ 2) * (hi / 2 + hj / 2))) ∧
    ( repulsive_force_hard_macro rf xi yi hi xi yi hj = Except.error ()) ∧
    (soft_hard_repel_disp rf soft hard =
      Except.ok ((soft.map (fun s => soft_hard_sum rf s hard)).map (fun a =>
        (4 * a.1 / max_disp_component
          ((soft.map (fun s => soft_hard_sum rf s hard)).map Prod.fst),
         4 * a.2 / max_disp_component
          ((soft.map (fun s => soft_hard_sum rf s hard)).map Prod.snd))))) := by
  refine ⟨repulsive_force_ok rf xi yi hi xj yj hj hne, ?_, ?_, ?_⟩
  · intro hbr
    unfold repulsive_force_val
    rw [if_neg hrf, if_pos hbr]
  · unfold repulsive_force_hard_macro
    rw [if_neg hrf]
    have hs : Real.sqrt ((xi - xi) ^ 2 + (yi - yi) ^ 2) = 0 := by
      norm_num
    rw [if_pos (Or.inl (by rw [hs]; norm_num)), if_pos hs]
  · unfold soft_hard_repel_disp
    rw [mapM_accum_ok rf soft hard hall]

/-- Witness for the amended C9: one soft macro at `(0, 0)` and one hard
macro at `(5, 5)`, with `repel_factor = 1`. -/
theorem claim_C9_amended_repulsion_witness :
    repulsive_force_hard_macro 1 0 0 2 5 5 2 =
      Except.ok (repulsive_force_val 1 0 0 2 5 5 2) ∧
    soft_hard_repel_disp 1 [(0, 0, 2)] [(5, 5, 2)] =
      Except.ok (([((0 : ℝ), (0 : ℝ), (2 : ℝ))].map
          (fun s => soft_hard_sum 1 s [(5, 5, 2)])).map (fun a =>
        (4 * a.1 / max_disp_component
          (([((0 : ℝ), (0 : ℝ), (2 : ℝ))].map
            (fun s => soft_hard_sum 1 s [(5, 5, 2)])).map Prod.fst),
         4 * a.2 / max_disp_component
          (([((0 : ℝ), (0 : ℝ), (2 : ℝ))].map
            (fun s => soft_hard_sum 1 s [(5, 5, 2)])).map Prod.snd)))) :=
  ⟨(claim_C9_amended_repulsion 1 [(0, 0, 2)] [(5, 5, 2)] 0 0 2 5 5 2
      (by norm_num)
      (by intro h; have := congrArg Prod.fst h; norm_num at this)
      (by intro s hs j hj
          simp only [List.mem_singleton] at hs hj
          subst hs; subst hj
          intro h; have := congrArg Prod.fst h; norm_num at this)).1,
   (claim_C9_amended_repulsion 1 [(0, 0, 2)] [(5, 5, 2)] 0 0 2 5 5 2
      (by norm_num)
      (by intro h; have := congrArg Prod.fst h; norm_num at this)
      (by intro s hs j hj
          simp only [List.mem_singleton] at hs hj
          subst hs; subst hj
          intro h; have := congrArg Prod.fst h; norm_num at this)).2.2.2⟩

end Plc
